import Mathlib

/-!
Verification development for the CVAlyze ETL service
(Backend/etl_service/app/api/v1/{preprocess,rag_extractor,cv_process}.py).

The Python modules are shallowly embedded: Python strings become Lean
strings (lists of unicode codepoints), Python dicts become ordered
association lists with unique keys (as Python guarantees), JSON values
become the inductive JValue, and every external collaborator (completion
service, geocoder, gender lookup, BigQuery job, PDF/DOCX parsers) is an
explicit oracle parameter.  Fallible Python code (code that can raise)
returns Option/Except.
-/

/-! ## Python string semantics helpers -/

/-- Whitespace for Python str.strip and the regex class backslash-s on str
(ASCII whitespace, the C1 control block 0x1c-0x1f, and the common Unicode
space codepoints). -/
def isPyWs (c : Char) : Bool :=
  c.toNat = 9 || c.toNat = 10 || c.toNat = 11 || c.toNat = 12 || c.toNat = 13 ||
  c.toNat = 28 || c.toNat = 29 || c.toNat = 30 || c.toNat = 31 || c.toNat = 32 ||
  c.toNat = 0x85 || c.toNat = 0xA0 || c.toNat = 0x1680 ||
  (0x2000 ≤ c.toNat && c.toNat ≤ 0x200A) ||
  c.toNat = 0x2028 || c.toNat = 0x2029 || c.toNat = 0x202F ||
  c.toNat = 0x205F || c.toNat = 0x3000

/-- Python str.strip on a list of characters. -/
def pyStripL (l : List Char) : List Char :=
  ((l.dropWhile isPyWs).reverse.dropWhile isPyWs).reverse

/-- Python str.strip. -/
def pyStripS (s : String) : String :=
  String.mk (pyStripL s.data)

/-- Python str.lower, restricted to the ASCII case mapping (every string
the code compares against, such as "null", is ASCII). -/
def pyLower (s : String) : String :=
  String.mk (s.data.map Char.toLower)

/-! ## JSON value model (the values json.loads can produce) -/

/-- Decoded JSON values.  Numbers are modelled as rationals: the extractor
code never does arithmetic on them, it only tests identity with None,
isinstance str/list, equality with string literals, and truthiness, and
all of those are preserved by this choice. -/
inductive JValue where
  | null
  | bool (b : Bool)
  | num (q : ℚ)
  | str (s : String)
  | arr (xs : List JValue)
  | obj (fs : List (String × JValue))

/-- Python truthiness of a JSON value. -/
def JValue.truthy : JValue → Bool
  | .null => false
  | .bool b => b
  | .num q => q != 0
  | .str s => s != ""
  | .arr xs => !xs.isEmpty
  | .obj fs => !fs.isEmpty

/-- Python dict.get k (None when absent), on an association list. -/
def jget (k : String) : List (String × JValue) → Option JValue
  | [] => none
  | (k2, v) :: rest => if k2 = k then some v else jget k rest

/-- Python dict assignment d[k] = v: update in place when the key exists
(keeping its position), append otherwise. -/
def jset (k : String) (v : JValue) : List (String × JValue) → List (String × JValue)
  | [] => [(k, v)]
  | (k2, w) :: rest => if k2 = k then (k2, v) :: rest else (k2, w) :: jset k v rest

/-! ## rag_extractor.py: CvExtractor -/

/-- Test on line 60-61 of rag_extractor.py: an element counts as
null-equivalent when it is None or a string whose strip().lower() is
"null" (the empty string does NOT count here). -/
def isNullElem (v : JValue) : Bool :=
  match v with
  | .null => true
  | .str s => pyLower (pyStripS s) == "null"
  | _ => false

/-- Filter on lines 46-51 of rag_extractor.py: keep a link when it is not
None, not the literal string "null", and (for strings) strips to a
non-empty string. -/
def linkKeep (v : JValue) : Bool :=
  match v with
  | .null => false
  | .str s => s != "null" && pyStripS s != ""
  | _ => true

/-- Normalisation of one project dict (lines 31-55 of rag_extractor.py):
force the links key to a list with contaminated entries removed. -/
def fixLinks (fs : List (String × JValue)) : List (String × JValue) :=
  match jget "links" fs with
  | none => jset "links" (.arr []) fs
  | some .null => jset "links" (.arr []) fs
  | some (.str s) =>
      if s = "null" ∨ s = "" then jset "links" (.arr []) fs
      else
        let c := pyStripS s
        if c ≠ "" ∧ pyLower c ≠ "null" then jset "links" (.arr [.str c]) fs
        else jset "links" (.arr []) fs
  | some (.arr ls) => jset "links" (.arr (ls.filter linkKeep)) fs
  | some _ => jset "links" (.arr []) fs

/-- Per-element projects pass (line 30-31): only dict elements are touched. -/
def fixProject (p : JValue) : JValue :=
  match p with
  | .obj fs => .obj (fixLinks fs)
  | _ => p

/-- Per-key transformation inside clean_empty_lists_as_none
(rag_extractor.py lines 17-62): strings equal to "null"/"" after
strip/lower become None; the projects list first gets its links repaired;
a list that is empty or made only of null-equivalent elements becomes
None. -/
def cleanVal (k : String) (v : JValue) : JValue :=
  match v with
  | .str s => if pyLower (pyStripS s) == "null" || pyStripS s == "" then .null else v
  | .arr xs =>
      let ys := if k = "projects" then xs.map fixProject else xs
      if ys.isEmpty then .null
      else if ys.all isNullElem then .null
      else .arr ys
  | _ => v

/-- CvExtractor.clean_empty_lists_as_none (rag_extractor.py lines 13-64),
acting entrywise on the dict (Python dict keys are unique). -/
def clean_empty_lists_as_none (fs : List (String × JValue)) : List (String × JValue) :=
  fs.map (fun kv => (kv.1, cleanVal kv.1 kv.2))

/-- One half of CvExtractor.normalize_links: if the value under key is
truthy and does not start with "http", prefix "https://" to its strip.
Calling .startswith on a truthy non-string raises AttributeError,
modelled as none. -/
def normOne (key : String) (fs : List (String × JValue)) : Option (List (String × JValue)) :=
  match jget key fs with
  | none => some fs
  | some v =>
      if v.truthy then
        match v with
        | .str s =>
            if s.startsWith "http" then some fs
            else some (jset key (.str ("https://" ++ pyStripS s)) fs)
        | _ => none
      else some fs

/-- CvExtractor.normalize_links (rag_extractor.py lines 67-77). -/
def normalize_links (fs : List (String × JValue)) : Option (List (String × JValue)) :=
  (normOne "github_link" fs).bind (normOne "linkedin_link")

/-- Fallback key list of CvExtractor.extract (rag_extractor.py lines
129-132). -/
def fallbackKeys : List String :=
  ["name", "profession", "phone_number", "email", "location", "github_link",
   "linkedin_link", "skills", "education", "experience", "projects",
   "certifications", "achievements"]

/-- Record returned by CvExtractor.extract on any failure (line 133). -/
def fallbackRecord : List (String × JValue) :=
  fallbackKeys.map (fun k => (k, JValue.null))

/-- Outcome of the completion-service interaction for one extract call:
fail covers a raised network error, a non-200 body without the expected
candidates structure, and a json.loads failure on the fence-stripped
text; parsed j means the response text parsed to the JSON value j. -/
inductive SvcResult where
  | fail
  | parsed (j : JValue)

/-- CvExtractor.extract (rag_extractor.py lines 80-133).  The prompt built
from the input text is answered by the oracle outcome o.  A parsed
non-dict raises in clean_empty_lists_as_none (data.items()), and
normalize_links can raise; every raise is caught by the except clause
which returns the all-null fallback record. -/
def extract (o : SvcResult) : List (String × JValue) :=
  match o with
  | .fail => fallbackRecord
  | .parsed (.obj fs) =>
      match normalize_links (clean_empty_lists_as_none fs) with
      | some r => r
      | none => fallbackRecord
  | .parsed _ => fallbackRecord

/-- Failure of the network call, the JSON parse, or the post-processing,
for a given service outcome. -/
def extractFails (o : SvcResult) : Prop :=
  match o with
  | .fail => True
  | .parsed (.obj fs) => normalize_links (clean_empty_lists_as_none fs) = none
  | .parsed _ => True

/-! ## preprocess.py: extract_text and the UTF-8 decoding of .txt files -/

/-- Continuation byte test for UTF-8 decoding. -/
def isCont (b : Nat) : Bool := 0x80 ≤ b && b ≤ 0xBF

/-- Valid second byte of a three-byte UTF-8 sequence (CPython rejects
overlong encodings and surrogates at the second byte). -/
def valid3b (b b2 : Nat) : Bool :=
  if b = 0xE0 then 0xA0 ≤ b2 && b2 ≤ 0xBF
  else if b = 0xED then 0x80 ≤ b2 && b2 ≤ 0x9F
  else isCont b2

/-- Valid second byte of a four-byte UTF-8 sequence. -/
def valid4b (b b2 : Nat) : Bool :=
  if b = 0xF0 then 0x90 ≤ b2 && b2 ≤ 0xBF
  else if b = 0xF4 then 0x80 ≤ b2 && b2 ≤ 0x8F
  else isCont b2

/-- CPython bytes.decode("utf-8", errors="ignore"): every maximal
ill-formed subsequence is silently dropped and decoding continues at the
next byte; a truncated sequence at the end of input is dropped too. -/
def decodeUtf8Ignore : List Nat → List Char
  | [] => []
  | b :: bs =>
    if b < 0x80 then Char.ofNat b :: decodeUtf8Ignore bs
    else if 0xC2 ≤ b && b ≤ 0xDF then
      match bs with
      | [] => []
      | b2 :: rest =>
        if isCont b2 then
          Char.ofNat (0x40 * (b - 0xC0) + (b2 - 0x80)) :: decodeUtf8Ignore rest
        else decodeUtf8Ignore (b2 :: rest)
    else if 0xE0 ≤ b && b ≤ 0xEF then
      match bs with
      | [] => []
      | [b2] => if valid3b b b2 then [] else decodeUtf8Ignore [b2]
      | b2 :: b3 :: rest =>
        if valid3b b b2 then
          if isCont b3 then
            Char.ofNat (0x1000 * (b - 0xE0) + 0x40 * (b2 - 0x80) + (b3 - 0x80)) ::
              decodeUtf8Ignore rest
          else decodeUtf8Ignore (b3 :: rest)
        else decodeUtf8Ignore (b2 :: b3 :: rest)
    else if 0xF0 ≤ b && b ≤ 0xF4 then
      match bs with
      | [] => []
      | [b2] => if valid4b b b2 then [] else decodeUtf8Ignore [b2]
      | [b2, b3] =>
        if valid4b b b2 then
          if isCont b3 then [] else decodeUtf8Ignore [b3]
        else decodeUtf8Ignore [b2, b3]
      | b2 :: b3 :: b4 :: rest =>
        if valid4b b b2 then
          if isCont b3 then
            if isCont b4 then
              Char.ofNat (0x40000 * (b - 0xF0) + 0x1000 * (b2 - 0x80) +
                0x40 * (b3 - 0x80) + (b4 - 0x80)) :: decodeUtf8Ignore rest
            else decodeUtf8Ignore (b4 :: rest)
          else decodeUtf8Ignore (b3 :: b4 :: rest)
        else decodeUtf8Ignore (b2 :: b3 :: b4 :: rest)
    else decodeUtf8Ignore bs

/-- Modelled from the spec: the spec claims the plain-text path decodes
"replacing undecodable sequences rather than failing", i.e. CPython
bytes.decode("utf-8", errors="replace"), which emits U+FFFD for every
maximal ill-formed subsequence instead of dropping it.  This definition
follows those words; the source actually passes errors="ignore". -/
def decodeUtf8ReplaceSpec : List Nat → List Char
  | [] => []
  | b :: bs =>
    if b < 0x80 then Char.ofNat b :: decodeUtf8ReplaceSpec bs
    else if 0xC2 ≤ b && b ≤ 0xDF then
      match bs with
      | [] => [Char.ofNat 0xFFFD]
      | b2 :: rest =>
        if isCont b2 then
          Char.ofNat (0x40 * (b - 0xC0) + (b2 - 0x80)) :: decodeUtf8ReplaceSpec rest
        else Char.ofNat 0xFFFD :: decodeUtf8ReplaceSpec (b2 :: rest)
    else if 0xE0 ≤ b && b ≤ 0xEF then
      match bs with
      | [] => [Char.ofNat 0xFFFD]
      | [b2] => if valid3b b b2 then [Char.ofNat 0xFFFD]
                else Char.ofNat 0xFFFD :: decodeUtf8ReplaceSpec [b2]
      | b2 :: b3 :: rest =>
        if valid3b b b2 then
          if isCont b3 then
            Char.ofNat (0x1000 * (b - 0xE0) + 0x40 * (b2 - 0x80) + (b3 - 0x80)) ::
              decodeUtf8ReplaceSpec rest
          else Char.ofNat 0xFFFD :: decodeUtf8ReplaceSpec (b3 :: rest)
        else Char.ofNat 0xFFFD :: decodeUtf8ReplaceSpec (b2 :: b3 :: rest)
    else if 0xF0 ≤ b && b ≤ 0xF4 then
      match bs with
      | [] => [Char.ofNat 0xFFFD]
      | [b2] => if valid4b b b2 then [Char.ofNat 0xFFFD]
                else Char.ofNat 0xFFFD :: decodeUtf8ReplaceSpec [b2]
      | [b2, b3] =>
        if valid4b b b2 then
          if isCont b3 then [Char.ofNat 0xFFFD]
          else Char.ofNat 0xFFFD :: decodeUtf8ReplaceSpec [b3]
        else Char.ofNat 0xFFFD :: decodeUtf8ReplaceSpec [b2, b3]
      | b2 :: b3 :: b4 :: rest =>
        if valid4b b b2 then
          if isCont b3 then
            if isCont b4 then
              Char.ofNat (0x40000 * (b - 0xF0) + 0x1000 * (b2 - 0x80) +
                0x40 * (b3 - 0x80) + (b4 - 0x80)) :: decodeUtf8ReplaceSpec rest
            else Char.ofNat 0xFFFD :: decodeUtf8ReplaceSpec (b4 :: rest)
          else Char.ofNat 0xFFFD :: decodeUtf8ReplaceSpec (b3 :: b4 :: rest)
        else Char.ofNat 0xFFFD :: decodeUtf8ReplaceSpec (b2 :: b3 :: b4 :: rest)
    else Char.ofNat 0xFFFD :: decodeUtf8ReplaceSpec bs

/-- Basename part of a path (os.path uses the separator /). -/
def afterLastSlash (cs : List Char) : List Char :=
  (cs.reverse.takeWhile (fun c => c ≠ '/')).reverse

/-- Suffix of the list starting at its last dot, if any. -/
def lastDotSuffix : List Char → Option (List Char)
  | [] => none
  | c :: cs =>
      match lastDotSuffix cs with
      | some s => some s
      | none => if c = '.' then some (c :: cs) else none

/-- Extension part of os.path.splitext: the suffix from the last dot of
the basename, empty when there is no dot or when every character before
that dot is itself a dot (leading dots never start an extension). -/
def splitextExt (fn : String) : String :=
  let base := afterLastSlash fn.data
  match lastDotSuffix base with
  | none => ""
  | some suf =>
      let pre := base.take (base.length - suf.length)
      if pre.any (fun c => c ≠ '.') then String.mk suf else ""

/-- preprocess.extract_text (preprocess.py lines 82-101) with the
filename given (as in process_single_cv).  The PDF and DOCX paths call
the external parser libraries, passed as oracles; the .txt path decodes
the raw bytes with errors="ignore"; any other extension raises
ValueError, modelled as the error case. -/
def extract_text (pdfX docxX : List Nat → Except String String)
    (content : List Nat) (filename : String) : Except String String :=
  let ext := pyLower (splitextExt filename)
  if ext = ".pdf" then pdfX content
  else if ext = ".docx" then docxX content
  else if ext = ".txt" then .ok (String.mk (decodeUtf8Ignore content))
  else .error ("Unsupported file format: " ++ ext)

/-! ## preprocess.py: get_lat_lon and get_gender -/

/-- Outcome of one geolocator.geocode call (the geopy collaborator):
found carries latitude, longitude and the optional address country;
notFound is a None result; timeout is GeocoderTimedOut; geoError is any
other exception. -/
inductive GeoOutcome where
  | found (lat lon : ℚ) (country : Option String)
  | notFound
  | timeout
  | geoError

/-- Default coordinates and country of get_lat_lon (line 166). -/
def defaultLatLon : ℚ × ℚ × String := (20.5937, 78.9629, "India")

/-- Retry loop of get_lat_lon (lines 171-191): r is retries - attempt,
calls counts geocode calls made so far (and indexes the oracle).  The
returned Nat is the total number of geocode calls. -/
def getLatLonGo (geocode : Nat → GeoOutcome) : Nat → Nat → (ℚ × ℚ × String) × Nat
  | 0, calls => (defaultLatLon, calls)
  | r + 1, calls =>
      match geocode calls with
      | .found lat lon country => ((lat, lon, country.getD "India"), calls + 1)
      | .notFound => (defaultLatLon, calls + 1)
      | .geoError => (defaultLatLon, calls + 1)
      | .timeout => getLatLonGo geocode r (calls + 1)

/-- preprocess.get_lat_lon (lines 153-191), coordinates modelled as
rationals (they are passed through unchanged, never computed with).
A falsy location returns the default with zero geocode calls. -/
def get_lat_lon (geocode : Nat → GeoOutcome) (location : JValue) (retries : Nat) :
    (ℚ × ℚ × String) × Nat :=
  if location.truthy then getLatLonGo geocode retries 0 else (defaultLatLon, 0)

/-- preprocess.get_gender (lines 196-206): the Genderize collaborator
either raises (error), returns gender None, or returns a gender string;
failures and None map to "unknown". -/
def get_gender (svc : Except Unit (Option String)) : String :=
  match svc with
  | .error _ => "unknown"
  | .ok none => "unknown"
  | .ok (some g) => g

/-! ## cv_process.py: credential selector -/

/-- Process-wide cached credential state (_active_api_key,
_key_checked_at), timestamps as integer minutes. -/
structure KeyState where
  active : Option String
  checkedAt : Option Int

/-- Truthiness test on line 64 of cv_process.py: both globals must be
truthy (an empty-string key or a missing timestamp is falsy; a datetime
object is always truthy). -/
def truthyKeyState (st : KeyState) : Bool :=
  match st.active, st.checkedAt with
  | some k, some _ => k != ""
  | _, _ => false

/-- Cache-hit test of get_active_api_key (lines 64-67): truthy cache, not
forced, and age strictly below the 20-minute TTL. -/
def cacheHit (st : KeyState) (force : Bool) (now : Int) : Bool :=
  truthyKeyState st && !force && decide (now - st.checkedAt.getD 0 < 20)

/-- Sequential probe over the credential list (lines 69-79): the result
is the first key the oracle validates, paired with the list of keys
actually probed, in order. -/
def probeLoop (probe : String → Bool) : List String → Option String × List String
  | [] => (none, [])
  | k :: ks =>
      if probe k then (some k, [k])
      else
        let r := probeLoop probe ks
        (r.1, k :: r.2)

/-- cv_process.get_active_api_key (lines 59-82).  The probe oracle stands
for check_api_key_async (true exactly when the test request returns
status 200).  Returns the RuntimeError case as error; the second
component lists the keys probed by this invocation (empty on a cache
hit, i.e. no network call). -/
def get_active_api_key (probe : String → Bool) (keys : List String) (now : Int)
    (force : Bool) (st : KeyState) : Except Unit (String × KeyState) × List String :=
  if cacheHit st force now then (.ok (st.active.getD "", st), [])
  else
    match probeLoop probe keys with
    | (some k, probed) => (.ok (k, ⟨some k, some now⟩), probed)
    | (none, probed) => (.error (), probed)

/-! ## cv_process.py: DataFrame sanitization and BigQuery load -/

/-- Designated list columns of sanitize_dataframe_for_bigquery
(line 143). -/
def listColumns : List String :=
  ["skills", "experience", "projects", "certifications", "achievements", "education"]

/-- Element filter of sanitize_dataframe_for_bigquery: drop None, the
empty string, and the literal string "null" (lines 152-153 and
159-162). -/
def keepItem (v : JValue) : Bool :=
  match v with
  | .null => false
  | .str s => s != "" && s != "null"
  | _ => true

/-- Sanitizer cell transform for the non-projects list columns (lines
159-162): a falsy or non-list cell becomes the empty list, a list keeps
only the elements passing keepItem. -/
def sanitizeListCell (v : JValue) : JValue :=
  if v.truthy then
    match v with
    | .arr xs => .arr (xs.filter keepItem)
    | _ => .arr []
  else .arr []

/-- Python iteration over (project.get("links") or []): a falsy value
iterates as the empty list; a list iterates its elements; a truthy
string iterates its characters; a truthy dict iterates its keys; a
truthy number or True is not iterable and raises TypeError (none). -/
def iterLinks : JValue → Option (List JValue)
  | .null => some []
  | .str s => some (s.data.map (fun c => JValue.str (String.mk [c])))
  | .arr xs => some xs
  | .obj fs => some (fs.map (fun kv => JValue.str kv.1))
  | .num q => if q = 0 then some [] else none
  | .bool b => if b then none else some []

/-- Sanitizer transform of one project element (lines 150-155): rebuild
the dict with links filtered; a non-dict element raises (none). -/
def sanitizeProject (p : JValue) : Option JValue :=
  match p with
  | .obj fs =>
      match iterLinks ((jget "links" fs).getD .null) with
      | some ls => some (.obj (jset "links" (.arr (ls.filter keepItem)) fs))
      | none => none
  | _ => none

/-- Python-style sequencing of a fallible map over a list (the first
raising element aborts the whole comprehension). -/
def mapOpt (f : α → Option β) : List α → Option (List β)
  | [] => some []
  | a :: rest =>
      match f a, mapOpt f rest with
      | some b, some bs => some (b :: bs)
      | _, _ => none

/-- Sanitizer cell transform for the projects column (lines 149-156). -/
def sanitizeProjectsCell (v : JValue) : Option JValue :=
  if v.truthy then
    match v with
    | .arr xs => (mapOpt sanitizeProject xs).map (fun ys => JValue.arr ys)
    | _ => some (.arr [])
  else some (.arr [])

/-- Sanitizer dispatch per column name (lines 145-162): non-designated
columns pass through. -/
def sanitizeCell (k : String) (v : JValue) : Option JValue :=
  if k ∈ listColumns then
    if k = "projects" then sanitizeProjectsCell v else some (sanitizeListCell v)
  else some v

/-- One row of the DataFrame under sanitize_dataframe_for_bigquery; the
DataFrame is modelled row-wise with uniform columns, so the per-column
apply is the per-key map over each row. -/
def sanitizeRow (row : List (String × JValue)) : Option (List (String × JValue)) :=
  mapOpt (fun kv => (sanitizeCell kv.1 kv.2).map (fun w => (kv.1, w))) row

/-- cv_process.sanitize_dataframe_for_bigquery (lines 141-164). -/
def sanitize_dataframe_for_bigquery (rows : List (List (String × JValue))) :
    Option (List (List (String × JValue))) :=
  mapOpt sanitizeRow rows

/-- Columns coerced by _load_to_bigquery_sync before sanitizing
(line 169; note education is absent here). -/
def coerceColumns : List String :=
  ["skills", "experience", "projects", "certifications", "achievements"]

/-- Cell coercion of _load_to_bigquery_sync (lines 171-173): non-list
values in the designated columns become the empty list. -/
def coerceCell (k : String) (v : JValue) : JValue :=
  if k ∈ coerceColumns then
    match v with
    | .arr _ => v
    | _ => .arr []
  else v

/-- Row form of the coercion pass. -/
def coerceRow (row : List (String × JValue)) : List (String × JValue) :=
  row.map (fun kv => (kv.1, coerceCell kv.1 kv.2))

/-- cv_process._load_to_bigquery_sync / load_to_bigquery (lines 167-193):
coerce, sanitize, then run the BigQuery job; jobOk is the external job
outcome (job.result() raises when the job fails, so the function either
returns True or raises — it never returns False). -/
def load_to_bigquery (jobOk : Bool) (rows : List (List (String × JValue))) :
    Option Bool :=
  match sanitize_dataframe_for_bigquery (rows.map coerceRow) with
  | none => none
  | some _ => if jobOk then some true else none

/-! ## cv_process.py: per-file processing and orchestration -/

/-- One uploaded file together with the completion-service outcome for
the prompt that its cleaned text produces. -/
structure CvFile where
  filename : String
  content : List Nat
  svc : SvcResult

/-- Error record built at the per-file boundary (line 205). -/
def errRecord (filename e : String) : List (String × JValue) :=
  [("error", .str e), ("file", .str filename)]

/-- cv_process.process_single_cv (lines 197-205): extract_text plus
clean_text feed the extractor prompt; any exception in that pipeline is
caught here and converted to the error record.  The extractor call never
raises, so only extract_text can fail. -/
def process_single_cv (pdfX docxX : List Nat → Except String String)
    (f : CvFile) : List (String × JValue) :=
  match extract_text pdfX docxX f.content f.filename with
  | .error e => errRecord f.filename e
  | .ok _ => extract f.svc

/-- Fixed column schema of the orchestrator (cv_process.py lines
228-230). -/
def expectedCols : List String :=
  ["name", "profession", "phone_number", "email", "location", "github_link",
   "linkedin_link", "skills", "education", "experience", "projects",
   "certifications", "achievements"]

/-- Reindexing of one success record onto the 13-column schema (line
232): missing keys become null, extra keys are dropped. -/
def rowOf (r : List (String × JValue)) : List (String × JValue) :=
  expectedCols.map (fun c => (c, (jget c r).getD .null))

/-- Negation of dropna(how=all) on one reindexed row (line 233): keep
rows having at least one non-null cell. -/
def rowHasData (row : List (String × JValue)) : Bool :=
  row.any (fun kv =>
    match kv.2 with
    | .null => false
    | _ => true)

/-- Enrichment of one row (lines 239-242): geolocation triple from the
location cell and gender from the name cell, appended as four new
columns. -/
def enrichRow (geo : JValue → Nat → GeoOutcome)
    (gsvc : JValue → Except Unit (Option String))
    (row : List (String × JValue)) : List (String × JValue) :=
  let loc := (jget "location" row).getD .null
  let r3 := (get_lat_lon (geo loc) loc 3).1
  let g := get_gender (gsvc ((jget "name" row).getD .null))
  row ++ [("latitude", .num r3.1), ("longitude", .num r3.2.1),
          ("country", .str r3.2.2), ("gender", .str g)]

/-- Result contract returned to the HTTP layer, plus whether the success
notification was invoked. -/
structure EtlResult where
  jsonCv : List (List (String × JValue))
  errors : List (List (String × JValue))
  emailSent : Bool

/-- Fan-out of process_cvs (line 218-219): the per-file results in batch
order (asyncio.gather preserves order). -/
def cvResults (pdfX docxX : List Nat → Except String String)
    (files : List CvFile) : List (List (String × JValue)) :=
  files.map (process_single_cv pdfX docxX)

/-- Partition of the results holding an error key (line 222). -/
def cvErrors (results : List (List (String × JValue))) :
    List (List (String × JValue)) :=
  results.filter (fun r => (jget "error" r).isSome)

/-- Partition of the results without an error key (line 221). -/
def cvAllData (results : List (List (String × JValue))) :
    List (List (String × JValue)) :=
  results.filter (fun r => !(jget "error" r).isSome)

/-- Reindexed success table with all-null rows dropped (lines 232-233). -/
def cvRows (results : List (List (String × JValue))) :
    List (List (String × JValue)) :=
  ((cvAllData results).map rowOf).filter rowHasData

/-- cv_process.process_cvs (lines 208-257).  cred is the outcome of
get_active_api_key (error aborts the batch); results are partitioned by
presence of the error key; successes are reindexed, all-null rows
dropped, survivors enriched; a non-empty table is loaded and on load
success the notifier is invoked.  A load exception propagates out
(Except.error): there is no try/except around the load await. -/
def process_cvs (pdfX docxX : List Nat → Except String String)
    (cred : Except Unit String) (geo : JValue → Nat → GeoOutcome)
    (gsvc : JValue → Except Unit (Option String)) (jobOk : Bool)
    (files : List CvFile) : Except Unit EtlResult :=
  match cred with
  | .error _ => .error ()
  | .ok _ =>
    let results := cvResults pdfX docxX files
    if (cvRows results).isEmpty then .ok ⟨[], cvErrors results, false⟩
    else
      match load_to_bigquery jobOk ((cvRows results).map (enrichRow geo gsvc)) with
      | none => .error ()
      | some _ =>
          .ok ⟨(cvRows results).map (enrichRow geo gsvc), cvErrors results, true⟩

/-! ## Lemmas about the credential probe loop -/

theorem probeLoop_all_fail (probe : String → Bool) (keys : List String)
    (h : ∀ k ∈ keys, probe k = false) : probeLoop probe keys = (none, keys) := by
  induction keys with
  | nil => rfl
  | cons k ks ih =>
      have hk : probe k = false := h k (List.mem_cons_self k ks)
      have ih2 := ih (fun x hx => h x (List.mem_cons_of_mem _ hx))
      simp [probeLoop, hk, ih2]

theorem probeLoop_first_success (probe : String → Bool) (pre : List String)
    (k : String) (rest : List String) (hpre : ∀ x ∈ pre, probe x = false)
    (hk : probe k = true) :
    probeLoop probe (pre ++ k :: rest) = (some k, pre ++ [k]) := by
  induction pre with
  | nil => simp [probeLoop, hk]
  | cons a as ih =>
      have ha : probe a = false := hpre a (List.mem_cons_self a as)
      have ih2 := ih (fun x hx => hpre x (List.mem_cons_of_mem _ hx))
      simp [probeLoop, ha, ih2]

/-- C5: if a cached key exists whose timestamp is less than the 20-minute
TTL old and force_refresh is false, get_active_api_key returns the cached
key with no network call (no key probed); otherwise the credential list
is probed sequentially exactly once: the first validating key is cached
with a fresh timestamp and returned with no further probing, and if every
credential fails the call raises after probing each key exactly once. -/
theorem get_active_api_key_policy :
    (∀ (probe : String → Bool) (keys : List String) (now : Int) (st : KeyState)
        (k : String) (t : Int), st.active = some k → st.checkedAt = some t →
        k ≠ "" → now - t < 20 →
        get_active_api_key probe keys now false st = (.ok (k, st), [])) ∧
    (∀ (probe : String → Bool) (now : Int) (force : Bool) (st : KeyState)
        (pre : List String) (k : String) (rest : List String),
        cacheHit st force now = false → (∀ x ∈ pre, probe x = false) →
        probe k = true →
        get_active_api_key probe (pre ++ k :: rest) now force st =
          (.ok (k, ⟨some k, some now⟩), pre ++ [k])) ∧
    (∀ (probe : String → Bool) (keys : List String) (now : Int) (force : Bool)
        (st : KeyState), cacheHit st force now = false →
        (∀ x ∈ keys, probe x = false) →
        get_active_api_key probe keys now force st = (.error (), keys)) := by
  refine ⟨?_, ?_, ?_⟩
  · intro probe keys now st k t ha hb hk hlt
    have h1 : cacheHit st false now = true := by
      simp [cacheHit, truthyKeyState, ha, hb, hk, hlt]
    simp [get_active_api_key, h1, ha]
  · intro probe now force st pre k rest hmiss hpre hk
    simp [get_active_api_key, hmiss, probeLoop_first_success probe pre k rest hpre hk]
  · intro probe keys now force st hmiss hall
    simp [get_active_api_key, hmiss, probeLoop_all_fail probe keys hall]

/-- Witness for C5 at concrete inputs: a fresh cache is returned without
probing; a stale cache triggers one sequential probe stopping at the
first good key; an all-bad list raises after probing every key once. -/
theorem get_active_api_key_policy_w :
    get_active_api_key (fun s => s == "B") ["A", "B", "C"] 5 false ⟨some "K", some 0⟩ =
      (.ok ("K", ⟨some "K", some 0⟩), []) ∧
    get_active_api_key (fun s => s == "B") ["A", "B", "C"] 30 false ⟨some "K", some 0⟩ =
      (.ok ("B", ⟨some "B", some 30⟩), ["A", "B"]) ∧
    get_active_api_key (fun _ => false) ["A", "B"] 5 true ⟨none, none⟩ =
      (.error (), ["A", "B"]) := by
  refine ⟨?_, ?_, ?_⟩
  · exact get_active_api_key_policy.1 _ _ _ _ "K" 0 rfl rfl (by decide) (by decide)
  · exact get_active_api_key_policy.2.1 _ _ _ _ ["A"] "B" ["C"]
      (by decide) (by decide) (by decide)
  · exact get_active_api_key_policy.2.2 _ _ _ _ _ (by decide) (by decide)

/-- C8: for a truthy location on which the geocoder times out on every
attempt, get_lat_lon returns the default (20.5937, 78.9629, "India")
after exactly the configured 3 attempts without raising; on a non-timeout
error it returns the same default immediately after a single call. -/
theorem get_lat_lon_retry_policy :
    (∀ (geocode : Nat → GeoOutcome) (loc : JValue), loc.truthy = true →
        (∀ n, n < 3 → geocode n = GeoOutcome.timeout) →
        get_lat_lon geocode loc 3 = (defaultLatLon, 3)) ∧
    (∀ (geocode : Nat → GeoOutcome) (loc : JValue), loc.truthy = true →
        geocode 0 = GeoOutcome.geoError →
        get_lat_lon geocode loc 3 = (defaultLatLon, 1)) := by
  constructor
  · intro geocode loc hl h
    have h0 := h 0 (by norm_num)
    have h1 := h 1 (by norm_num)
    have h2 := h 2 (by norm_num)
    simp [get_lat_lon, hl, getLatLonGo, h0, h1, h2]
  · intro geocode loc hl h0
    simp [get_lat_lon, hl, getLatLonGo, h0]

/-- Witness for C8 at a concrete location and concrete oracles. -/
theorem get_lat_lon_retry_policy_w :
    get_lat_lon (fun _ => GeoOutcome.timeout) (.str "Delhi") 3 = (defaultLatLon, 3) ∧
    get_lat_lon (fun _ => GeoOutcome.geoError) (.str "Delhi") 3 = (defaultLatLon, 1) :=
  ⟨get_lat_lon_retry_policy.1 _ _ (by decide) (fun n _ => rfl),
   get_lat_lon_retry_policy.2 _ _ (by decide) rfl⟩

/-- C1: whenever the network call, the JSON parse, or the post-processing
fails, CvExtractor.extract returns exactly the fallback record, whose
keys are the 13 schema keys, each bound to null — never a partial or
garbage record.  The embedding of extract is a total function, so no
outcome makes it raise. -/
theorem extract_failure_gives_all_null_record :
    (∀ o : SvcResult, extractFails o → extract o = fallbackRecord) ∧
    fallbackRecord.map Prod.fst = fallbackKeys ∧
    (∀ kv ∈ fallbackRecord, kv.2 = JValue.null) ∧
    fallbackKeys.length = 13 := by
  refine ⟨?_, rfl, ?_, rfl⟩
  · intro o h
    cases o with
    | fail => rfl
    | parsed j =>
        cases j with
        | obj fs =>
            simp only [extractFails] at h
            simp [extract, h]
        | null => rfl
        | bool b => rfl
        | num q => rfl
        | str s => rfl
        | arr xs => rfl
  · intro kv hkv
    obtain ⟨k, _, rfl⟩ := List.mem_map.mp hkv
    rfl

/-- Witness for C1 at the network-failure outcome. -/
theorem extract_failure_gives_all_null_record_w :
    extractFails SvcResult.fail ∧ extract SvcResult.fail = fallbackRecord :=
  ⟨trivial, extract_failure_gives_all_null_record.1 SvcResult.fail trivial⟩

/-- C9 (amended): on the plain-text path extract_text never fails — for
every byte sequence, valid UTF-8 or not, it returns the UTF-8 decoding
with undecodable sequences dropped (errors="ignore"). -/
theorem extract_text_txt_never_raises :
    ∀ (pdfX docxX : List Nat → Except String String) (content : List Nat)
      (filename : String), pyLower (splitextExt filename) = ".txt" →
      extract_text pdfX docxX content filename =
        .ok (String.mk (decodeUtf8Ignore content)) := by
  intro pdfX docxX content filename h
  simp [extract_text, h]

/-- Witness for the amended C9: an invalid byte followed by the letter A
decodes to just "A", with no error. -/
theorem extract_text_txt_never_raises_w :
    extract_text (fun _ => .error "pdf") (fun _ => .error "docx")
      [0xFF, 0x41] "cv.txt" = .ok "A" := by
  have h := extract_text_txt_never_raises (fun _ => .error "pdf")
    (fun _ => .error "docx") [0xFF, 0x41] "cv.txt" (by decide)
  rw [h]
  rfl

/-- Counterexample to C9 as stated: the claim says undecodable sequences
are REPLACED (errors="replace", which emits U+FFFD); the code passes
errors="ignore", so on the invalid byte 0xFF the code returns the empty
string while the replacing semantics the claim describes yields the
one-character replacement string — the two disagree. -/
theorem extract_text_txt_ignores_not_replaces :
    extract_text (fun _ => .error "pdf") (fun _ => .error "docx") [0xFF] "cv.txt" =
      .ok "" ∧ String.mk (decodeUtf8ReplaceSpec [0xFF]) ≠ "" :=
  ⟨rfl, by decide⟩

/-! ## Lemmas about clean_empty_lists_as_none (claims C4, C10) -/

theorem jget_jset_self (k : String) (v : JValue) (fs : List (String × JValue)) :
    jget k (jset k v fs) = some v := by
  induction fs with
  | nil => simp [jget, jset]
  | cons kv rest ih =>
      obtain ⟨k2, w⟩ := kv
      by_cases hk : k2 = k
      · simp [jget, jset, hk]
      · simp [jget, jset, hk, ih]

theorem isNullElem_fixProject (p : JValue) :
    isNullElem (fixProject p) = isNullElem p := by
  cases p <;> rfl

theorem fixLinks_links (fs : List (String × JValue)) :
    ∃ ls, jget "links" (fixLinks fs) = some (.arr ls) ∧
      ∀ l ∈ ls, l ≠ .null ∧ l ≠ .str "" ∧ l ≠ .str "null" := by
  unfold fixLinks
  cases hj : jget "links" fs with
  | none => exact ⟨[], jget_jset_self _ _ _, by simp⟩
  | some v =>
      cases v with
      | null => exact ⟨[], jget_jset_self _ _ _, by simp⟩
      | bool b => exact ⟨[], jget_jset_self _ _ _, by simp⟩
      | num q => exact ⟨[], jget_jset_self _ _ _, by simp⟩
      | obj gs => exact ⟨[], jget_jset_self _ _ _, by simp⟩
      | str s =>
          by_cases h1 : s = "null" ∨ s = ""
          · simp only [if_pos h1]
            exact ⟨[], jget_jset_self _ _ _, by simp⟩
          · simp only [if_neg h1]
            by_cases h2 : pyStripS s ≠ "" ∧ pyLower (pyStripS s) ≠ "null"
            · simp only [if_pos h2]
              refine ⟨[.str (pyStripS s)], jget_jset_self _ _ _, ?_⟩
              intro l hl
              rw [List.mem_singleton] at hl
              subst hl
              refine ⟨by simp, by simp [h2.1], ?_⟩
              intro hc
              rw [JValue.str.injEq] at hc
              exact h2.2 (by rw [hc]; rfl)
            · simp only [if_neg h2]
              exact ⟨[], jget_jset_self _ _ _, by simp⟩
      | arr ls =>
          refine ⟨ls.filter linkKeep, jget_jset_self _ _ _, ?_⟩
          intro l hl
          have hk : linkKeep l = true := List.of_mem_filter hl
          cases l with
          | null => simp [linkKeep] at hk
          | str s =>
              simp only [linkKeep, Bool.and_eq_true, bne_iff_ne, ne_eq] at hk
              refine ⟨by simp, ?_, by simp [hk.1]⟩
              intro hc
              rw [JValue.str.injEq] at hc
              exact hk.2 (by rw [hc]; rfl)
          | bool b => exact ⟨by simp, by simp, by simp⟩
          | num q => exact ⟨by simp, by simp, by simp⟩
          | arr xs => exact ⟨by simp, by simp, by simp⟩
          | obj gs => exact ⟨by simp, by simp, by simp⟩

theorem cleanVal_arr_null (k : String) (xs : List JValue)
    (h : (xs.isEmpty || xs.all isNullElem) = true) :
    cleanVal k (.arr xs) = .null := by
  have hfp : (fun p => isNullElem (fixProject p)) = isNullElem :=
    funext fun p => isNullElem_fixProject p
  have hor : xs.isEmpty = true ∨ xs.all isNullElem = true := by
    simpa using h
  rcases hor with he | ha
  · have hx : xs = [] := by
      cases xs with
      | nil => rfl
      | cons a as => simp at he
    subst hx
    by_cases hk : k = "projects" <;> simp [cleanVal, hk]
  · by_cases hk : k = "projects"
    · have hall : (xs.map fixProject).all isNullElem = true := by
        rw [List.all_map]
        have hcomp : (isNullElem ∘ fixProject) = isNullElem :=
          funext fun p => isNullElem_fixProject p
        rw [hcomp]
        exact ha
      cases hme : (xs.map fixProject).isEmpty <;>
        simp [cleanVal, hk, hme, hall]
    · cases hme : xs.isEmpty <;> simp [cleanVal, hk, hme, ha]

theorem cleanVal_str (k s : String) :
    cleanVal k (.str s) =
      if pyLower (pyStripS s) == "null" || pyStripS s == "" then .null
      else .str s := rfl

theorem cleanVal_arr_cases (k : String) (xs : List JValue) :
    cleanVal k (.arr xs) = .null ∨
      cleanVal k (.arr xs) = .arr (if k = "projects" then xs.map fixProject else xs) := by
  have he : cleanVal k (.arr xs) =
      (if (if k = "projects" then xs.map fixProject else xs).isEmpty then JValue.null
       else if (if k = "projects" then xs.map fixProject else xs).all isNullElem then
         JValue.null
       else .arr (if k = "projects" then xs.map fixProject else xs)) := rfl
  by_cases h1 : (if k = "projects" then xs.map fixProject else xs).isEmpty = true
  · left
    rw [he, if_pos h1]
  · by_cases h2 : (if k = "projects" then xs.map fixProject else xs).all isNullElem = true
    · left
      rw [he, if_neg h1, if_pos h2]
    · right
      rw [he, if_neg h1, if_neg h2]

/-- C4: every top-level list value that is empty or contains only
null-equivalent elements becomes null (not the empty list); and in the
cleaned record every dict element of the projects list carries a links
key that is always a list — never null — holding no null, empty-string,
or "null" element. -/
theorem clean_empty_lists_normalization :
    (∀ (fs : List (String × JValue)) (i : ℕ) (k : String) (xs : List JValue),
        fs.get? i = some (k, .arr xs) →
        (xs.isEmpty || xs.all isNullElem) = true →
        (clean_empty_lists_as_none fs).get? i = some (k, JValue.null)) ∧
    (∀ (fs : List (String × JValue)) (i : ℕ) (ps : List JValue),
        (clean_empty_lists_as_none fs).get? i = some ("projects", .arr ps) →
        ∀ p ∈ ps, ∀ pf, p = .obj pf →
          ∃ ls, jget "links" pf = some (.arr ls) ∧
            ∀ l ∈ ls, l ≠ .null ∧ l ≠ .str "" ∧ l ≠ .str "null") := by
  constructor
  · intro fs i k xs hin hxs
    unfold clean_empty_lists_as_none
    rw [List.get?_map, hin]
    simp [cleanVal_arr_null k xs hxs]
  · intro fs i ps hout p hp pf hpf
    unfold clean_empty_lists_as_none at hout
    rw [List.get?_map] at hout
    cases hin : fs.get? i with
    | none => rw [hin] at hout; simp at hout
    | some kv =>
        rw [hin] at hout
        obtain ⟨k0, v0⟩ := kv
        simp only [Option.map_some', Option.some.injEq, Prod.mk.injEq] at hout
        obtain ⟨hk0, hv0⟩ := hout
        subst hk0
        cases v0 with
        | null => simp [cleanVal] at hv0
        | bool b => simp [cleanVal] at hv0
        | num q => simp [cleanVal] at hv0
        | obj gs => simp [cleanVal] at hv0
        | str s =>
            rw [cleanVal_str] at hv0
            split at hv0 <;> simp at hv0
        | arr xs =>
            rcases cleanVal_arr_cases "projects" xs with h | h <;> rw [h] at hv0
            · simp at hv0
            · rw [if_pos rfl] at hv0
              rw [JValue.arr.injEq] at hv0
              subst hv0
              obtain ⟨x, hx, hfx⟩ := List.mem_map.mp hp
              rw [hpf] at hfx
              cases x with
              | obj f0 =>
                  have hpf2 : fixLinks f0 = pf := by
                    have : JValue.obj (fixLinks f0) = JValue.obj pf := hfx
                    rw [JValue.obj.injEq] at this
                    exact this
                  rw [← hpf2]
                  exact fixLinks_links f0
              | null => simp [fixProject] at hfx
              | bool b => simp [fixProject] at hfx
              | num q => simp [fixProject] at hfx
              | str s => simp [fixProject] at hfx
              | arr ys => simp [fixProject] at hfx

/-- Witness for C4: a skills list of null-equivalent junk becomes null,
and a concrete project with contaminated links comes out with links
equal to a clean list. -/
theorem clean_empty_lists_normalization_w :
    (clean_empty_lists_as_none [("skills", .arr [.null, .str " NULL "])]).get? 0 =
      some ("skills", JValue.null) ∧
    (∃ ls, jget "links" [("name", JValue.str "p"), ("links", .arr [.str "x"])] =
        some (.arr ls) ∧
      ∀ l ∈ ls, l ≠ .null ∧ l ≠ .str "" ∧ l ≠ .str "null") := by
  constructor
  · exact clean_empty_lists_normalization.1
      [("skills", .arr [.null, .str " NULL "])] 0 "skills"
      [.null, .str " NULL "] rfl (by decide)
  · exact clean_empty_lists_normalization.2
      [("projects", .arr [.obj [("name", .str "p"),
        ("links", .arr [.null, .str "x", .str "null", .str " "])]])] 0
      [.obj [("name", .str "p"), ("links", .arr [.str "x"])]] rfl
      (.obj [("name", .str "p"), ("links", .arr [.str "x"])])
      (List.mem_singleton.mpr rfl)
      [("name", .str "p"), ("links", .arr [.str "x"])] rfl

/-- C10: a top-level string value that strips to the empty string or
case-insensitively to "null" is replaced by null, and consequently no
string value surviving the pass is empty or "null"-equivalent after
stripping. -/
theorem clean_empty_lists_scalar_normalization :
    (∀ (fs : List (String × JValue)) (i : ℕ) (k s : String),
        fs.get? i = some (k, .str s) →
        (pyLower (pyStripS s) == "null" || pyStripS s == "") = true →
        (clean_empty_lists_as_none fs).get? i = some (k, JValue.null)) ∧
    (∀ (fs : List (String × JValue)) (i : ℕ) (k s : String),
        (clean_empty_lists_as_none fs).get? i = some (k, .str s) →
        pyStripS s ≠ "" ∧ pyLower (pyStripS s) ≠ "null") := by
  constructor
  · intro fs i k s hin hs
    unfold clean_empty_lists_as_none
    rw [List.get?_map, hin]
    have hcv : cleanVal k (.str s) = .null := by
      rw [cleanVal_str, if_pos hs]
    simp [hcv]
  · intro fs i k s hout
    unfold clean_empty_lists_as_none at hout
    rw [List.get?_map] at hout
    cases hin : fs.get? i with
    | none => rw [hin] at hout; simp at hout
    | some kv =>
        rw [hin] at hout
        obtain ⟨k0, v0⟩ := kv
        simp only [Option.map_some', Option.some.injEq, Prod.mk.injEq] at hout
        obtain ⟨hk0, hv0⟩ := hout
        cases v0 with
        | null => simp [cleanVal] at hv0
        | bool b => simp [cleanVal] at hv0
        | num q => simp [cleanVal] at hv0
        | obj gs => simp [cleanVal] at hv0
        | arr xs =>
            rcases cleanVal_arr_cases k0 xs with h | h <;> rw [h] at hv0 <;> simp at hv0
        | str s0 =>
            rw [cleanVal_str] at hv0
            by_cases hc : (pyLower (pyStripS s0) == "null" || pyStripS s0 == "") = true
            · rw [if_pos hc] at hv0
              simp at hv0
            · rw [if_neg hc] at hv0
              rw [JValue.str.injEq] at hv0
              subst hv0
              simp only [Bool.or_eq_true, beq_iff_eq, not_or] at hc
              exact ⟨hc.2, hc.1⟩

/-- Witness for C10: a whitespace-padded "Null" scalar becomes null, and
a surviving scalar is neither empty nor "null" after stripping. -/
theorem clean_empty_lists_scalar_normalization_w :
    (clean_empty_lists_as_none [("name", .str " Null ")]).get? 0 =
      some ("name", JValue.null) ∧
    (pyStripS "Bob" ≠ "" ∧ pyLower (pyStripS "Bob") ≠ "null") := by
  constructor
  · exact clean_empty_lists_scalar_normalization.1 [("name", .str " Null ")] 0
      "name" " Null " rfl (by decide)
  · exact clean_empty_lists_scalar_normalization.2 [("name", .str "Bob")] 0
      "name" "Bob" rfl

/-! ## Lemmas about the sanitizer (claim C7) -/

theorem mapOpt_mem {α β : Type} (f : α → Option β) (l : List α) (l2 : List β)
    (h : mapOpt f l = some l2) : ∀ b ∈ l2, ∃ a ∈ l, f a = some b := by
  induction l generalizing l2 with
  | nil =>
      unfold mapOpt at h
      rw [Option.some.injEq] at h
      subst h
      simp
  | cons a rest ih =>
      unfold mapOpt at h
      cases hfa : f a with
      | none => rw [hfa] at h; cases h
      | some b0 =>
          rw [hfa] at h
          cases hrest : mapOpt f rest with
          | none => rw [hrest] at h; cases h
          | some bs =>
              rw [hrest] at h
              rw [Option.some.injEq] at h
              subst h
              intro b hb
              rcases List.mem_cons.mp hb with hb | hb
              · exact ⟨a, List.mem_cons_self a rest, by rw [hfa, hb]⟩
              · obtain ⟨a2, ha2, hfa2⟩ := ih bs hrest b hb
                exact ⟨a2, List.mem_cons_of_mem a ha2, hfa2⟩

theorem mapOpt_forward {α β : Type} (f : α → Option β) (l : List α)
    (h : ∀ a ∈ l, ∃ b, f a = some b) :
    ∃ l2, mapOpt f l = some l2 ∧ l2.length = l.length := by
  induction l with
  | nil => exact ⟨[], rfl, rfl⟩
  | cons a rest ih =>
      obtain ⟨b, hb⟩ := h a (List.mem_cons_self a rest)
      obtain ⟨bs, hbs, hlen⟩ := ih (fun x hx => h x (List.mem_cons_of_mem a hx))
      refine ⟨b :: bs, ?_, by simp [hlen]⟩
      unfold mapOpt
      rw [hb, hbs]

theorem keepItem_props (v : JValue) (h : keepItem v = true) :
    v ≠ .null ∧ v ≠ .str "" ∧ v ≠ .str "null" := by
  cases v with
  | null => simp [keepItem] at h
  | str s =>
      simp only [keepItem, Bool.and_eq_true, bne_iff_ne, ne_eq] at h
      exact ⟨by simp, by simp [h.1], by simp [h.2]⟩
  | bool b => exact ⟨by simp, by simp, by simp⟩
  | num q => exact ⟨by simp, by simp, by simp⟩
  | arr xs => exact ⟨by simp, by simp, by simp⟩
  | obj gs => exact ⟨by simp, by simp, by simp⟩

theorem sanitizeProject_props (p w : JValue) (h : sanitizeProject p = some w) :
    ∃ pf, w = .obj pf ∧ ∃ ls, jget "links" pf = some (.arr ls) ∧
      ∀ l ∈ ls, l ≠ .null ∧ l ≠ .str "" ∧ l ≠ .str "null" := by
  cases p with
  | obj fs =>
      cases hil : iterLinks ((jget "links" fs).getD .null) with
      | none => simp [sanitizeProject, hil] at h
      | some ls0 =>
          simp only [sanitizeProject, hil, Option.some.injEq] at h
          subst h
          refine ⟨_, rfl, ls0.filter keepItem, jget_jset_self _ _ _, ?_⟩
          intro l hl
          exact keepItem_props l (List.of_mem_filter hl)
  | null => cases h
  | bool b => cases h
  | num q => cases h
  | str s => cases h
  | arr xs => cases h

/-- Property of one sanitized cell: the value is a list whose elements
are never null, the empty string, or the literal "null"; in the projects
column every element is moreover a dict whose links value is a list
filtered by the same rule. -/
def cellSanitized (k : String) (v : JValue) : Prop :=
  ∃ xs, v = .arr xs ∧ (∀ e ∈ xs, e ≠ .null ∧ e ≠ .str "" ∧ e ≠ .str "null") ∧
    (k = "projects" → ∀ e ∈ xs, ∃ pf, e = .obj pf ∧ ∃ ls,
      jget "links" pf = some (.arr ls) ∧
      ∀ l ∈ ls, l ≠ .null ∧ l ≠ .str "" ∧ l ≠ .str "null")

theorem sanitizeProjectsCell_non_arr (v : JValue)
    (hv : ∀ xs, v ≠ JValue.arr xs) :
    sanitizeProjectsCell v = some (.arr []) := by
  cases v with
  | arr xs => exact absurd rfl (hv xs)
  | null => rfl
  | bool b => cases b <;> rfl
  | num q => unfold sanitizeProjectsCell; split <;> rfl
  | str s => unfold sanitizeProjectsCell; split <;> rfl
  | obj fs => unfold sanitizeProjectsCell; split <;> rfl

theorem sanitizeListCell_non_arr (v : JValue)
    (hv : ∀ xs, v ≠ JValue.arr xs) :
    sanitizeListCell v = .arr [] := by
  cases v with
  | arr xs => exact absurd rfl (hv xs)
  | null => rfl
  | bool b => cases b <;> rfl
  | num q => unfold sanitizeListCell; split <;> rfl
  | str s => unfold sanitizeListCell; split <;> rfl
  | obj fs => unfold sanitizeListCell; split <;> rfl

theorem sanitizeCell_sanitized (k : String) (v w : JValue)
    (hk : k ∈ listColumns) (h : sanitizeCell k v = some w) :
    cellSanitized k w := by
  unfold sanitizeCell at h
  rw [if_pos hk] at h
  by_cases hp : k = "projects"
  · subst hp
    rw [if_pos rfl] at h
    cases v with
    | arr xs =>
        by_cases ht : (JValue.arr xs).truthy = true
        · cases hm : mapOpt sanitizeProject xs with
          | none => simp [sanitizeProjectsCell, ht, hm] at h
          | some ys =>
              simp only [sanitizeProjectsCell, ht, if_true, hm,
                Option.map_some', Option.some.injEq] at h
              subst h
              refine ⟨ys, rfl, ?_, ?_⟩
              · intro e he
                obtain ⟨a, _, hfa⟩ := mapOpt_mem _ _ _ hm e he
                obtain ⟨pf, hpf, _⟩ := sanitizeProject_props a e hfa
                subst hpf
                exact ⟨by simp, by simp, by simp⟩
              · intro _ e he
                obtain ⟨a, _, hfa⟩ := mapOpt_mem _ _ _ hm e he
                exact sanitizeProject_props a e hfa
        · have he : sanitizeProjectsCell (.arr xs) = some (.arr []) := by
            unfold sanitizeProjectsCell
            rw [if_neg ht]
          rw [he, Option.some.injEq] at h
          subst h
          exact ⟨[], rfl, by simp, by simp⟩
    | null =>
        rw [sanitizeProjectsCell_non_arr _ (fun xs hc => by cases hc),
          Option.some.injEq] at h
        subst h
        exact ⟨[], rfl, by simp, by simp⟩
    | bool b =>
        rw [sanitizeProjectsCell_non_arr _ (fun xs hc => by cases hc),
          Option.some.injEq] at h
        subst h
        exact ⟨[], rfl, by simp, by simp⟩
    | num q =>
        rw [sanitizeProjectsCell_non_arr _ (fun xs hc => by cases hc),
          Option.some.injEq] at h
        subst h
        exact ⟨[], rfl, by simp, by simp⟩
    | str s =>
        rw [sanitizeProjectsCell_non_arr _ (fun xs hc => by cases hc),
          Option.some.injEq] at h
        subst h
        exact ⟨[], rfl, by simp, by simp⟩
    | obj gs =>
        rw [sanitizeProjectsCell_non_arr _ (fun xs hc => by cases hc),
          Option.some.injEq] at h
        subst h
        exact ⟨[], rfl, by simp, by simp⟩
  · rw [if_neg hp, Option.some.injEq] at h
    subst h
    cases v with
    | arr xs =>
        by_cases ht : (JValue.arr xs).truthy = true
        · have he : sanitizeListCell (.arr xs) = .arr (xs.filter keepItem) := by
            unfold sanitizeListCell
            rw [if_pos ht]
          rw [he]
          refine ⟨xs.filter keepItem, rfl, ?_, fun hc => absurd hc hp⟩
          intro e he2
          exact keepItem_props e (List.of_mem_filter he2)
        · have he : sanitizeListCell (.arr xs) = .arr [] := by
            unfold sanitizeListCell
            rw [if_neg ht]
          rw [he]
          exact ⟨[], rfl, by simp, fun hc => absurd hc hp⟩
    | null =>
        rw [sanitizeListCell_non_arr _ (fun xs hc => by cases hc)]
        exact ⟨[], rfl, by simp, fun hc => absurd hc hp⟩
    | bool b =>
        rw [sanitizeListCell_non_arr _ (fun xs hc => by cases hc)]
        exact ⟨[], rfl, by simp, fun hc => absurd hc hp⟩
    | num q =>
        rw [sanitizeListCell_non_arr _ (fun xs hc => by cases hc)]
        exact ⟨[], rfl, by simp, fun hc => absurd hc hp⟩
    | str s =>
        rw [sanitizeListCell_non_arr _ (fun xs hc => by cases hc)]
        exact ⟨[], rfl, by simp, fun hc => absurd hc hp⟩
    | obj gs =>
        rw [sanitizeListCell_non_arr _ (fun xs hc => by cases hc)]
        exact ⟨[], rfl, by simp, fun hc => absurd hc hp⟩

/-- C7: in every table sanitize_dataframe_for_bigquery produces, no
designated list column holds a null, empty-string, or "null" element,
the same filter having been applied recursively inside each project
element to its links list; and a non-list value in a designated column
is coerced to the empty list instead of erroring. -/
theorem sanitize_dataframe_spec :
    (∀ (rows rows2 : List (List (String × JValue))),
        sanitize_dataframe_for_bigquery rows = some rows2 →
        ∀ row ∈ rows2, ∀ kv ∈ row, kv.1 ∈ listColumns →
          cellSanitized kv.1 kv.2) ∧
    (∀ (k : String) (v : JValue), k ∈ listColumns → (∀ xs, v ≠ .arr xs) →
        sanitizeCell k v = some (.arr [])) := by
  constructor
  · intro rows rows2 h row hrow kv hkv hk
    obtain ⟨row0, _, hsan⟩ := mapOpt_mem _ _ _ h row hrow
    obtain ⟨kv0, _, hcell⟩ := mapOpt_mem _ _ _ hsan kv hkv
    cases hc : sanitizeCell kv0.1 kv0.2 with
    | none => rw [hc] at hcell; cases hcell
    | some w =>
        rw [hc] at hcell
        simp only [Option.map_some', Option.some.injEq] at hcell
        subst hcell
        exact sanitizeCell_sanitized kv0.1 kv0.2 w hk hc
  · intro k v hk hnv
    unfold sanitizeCell
    rw [if_pos hk]
    by_cases hp : k = "projects"
    · rw [if_pos hp]
      exact sanitizeProjectsCell_non_arr v hnv
    · rw [if_neg hp, sanitizeListCell_non_arr v hnv]

/-- Witness for C7: a concrete contaminated skills cell comes out as a
clean list, and a string in the education column is coerced to the empty
list. -/
theorem sanitize_dataframe_spec_w :
    cellSanitized "skills" (.arr [.str "Py"]) ∧
    sanitizeCell "education" (.str "oops") = some (.arr []) := by
  constructor
  · exact sanitize_dataframe_spec.1
      [[("skills", .arr [.null, .str "", .str "null", .str "Py"])]]
      [[("skills", .arr [.str "Py"])]] rfl
      [("skills", .arr [.str "Py"])] (List.mem_singleton.mpr rfl)
      ("skills", .arr [.str "Py"]) (List.mem_singleton.mpr rfl)
      (by decide)
  · exact sanitize_dataframe_spec.2 "education" (.str "oops") (by decide)
      (fun xs h => by cases h)

/-! ## Lemmas about the orchestrator (claims C3, C6) -/

/-- Unfolding of process_cvs when a credential is available. -/
theorem process_cvs_ok (pdfX docxX : List Nat → Except String String)
    (key : String) (geo : JValue → Nat → GeoOutcome)
    (gsvc : JValue → Except Unit (Option String)) (jobOk : Bool)
    (files : List CvFile) :
    process_cvs pdfX docxX (.ok key) geo gsvc jobOk files =
      (if (cvRows (cvResults pdfX docxX files)).isEmpty then
        .ok ⟨[], cvErrors (cvResults pdfX docxX files), false⟩
      else
        match load_to_bigquery jobOk
            ((cvRows (cvResults pdfX docxX files)).map (enrichRow geo gsvc)) with
        | none => .error ()
        | some _ =>
            .ok ⟨(cvRows (cvResults pdfX docxX files)).map (enrichRow geo gsvc),
              cvErrors (cvResults pdfX docxX files), true⟩) := rfl

/-- A well-formed file of the C3 scenario: its text extraction succeeds,
its extractor record carries no error key, its reindexed row is not
all-null, and the sanitizer accepts its enriched coerced row. -/
def GoodFile (pdfX docxX : List Nat → Except String String)
    (geo : JValue → Nat → GeoOutcome) (gsvc : JValue → Except Unit (Option String))
    (f : CvFile) : Prop :=
  (∃ t, extract_text pdfX docxX f.content f.filename = .ok t) ∧
  jget "error" (extract f.svc) = none ∧
  rowHasData (rowOf (extract f.svc)) = true ∧
  ∃ r2, sanitizeRow (coerceRow (enrichRow geo gsvc (rowOf (extract f.svc)))) = some r2

/-- C3: in a batch where exactly one file is malformed (its extraction
raises, e.g. an unsupported extension) and every other file is
well-formed, process_cvs returns exactly one ProcessingError referencing
the malformed file and one success record per sibling: the failure never
cancels, aborts, or corrupts the sibling results. -/
theorem process_cvs_isolates_failures :
    ∀ (pdfX docxX : List Nat → Except String String) (key : String)
      (geo : JValue → Nat → GeoOutcome) (gsvc : JValue → Except Unit (Option String))
      (A : List CvFile) (fk : CvFile) (B : List CvFile) (e : String),
      extract_text pdfX docxX fk.content fk.filename = .error e →
      (∀ f ∈ A ++ B, GoodFile pdfX docxX geo gsvc f) →
      ∃ res, process_cvs pdfX docxX (.ok key) geo gsvc true (A ++ fk :: B) = .ok res ∧
        res.errors = [errRecord fk.filename e] ∧
        res.jsonCv.length = A.length + B.length := by
  intro pdfX docxX key geo gsvc A fk B e hbad hgood
  have hgA : ∀ f ∈ A, GoodFile pdfX docxX geo gsvc f :=
    fun f hf => hgood f (List.mem_append_left _ hf)
  have hgB : ∀ f ∈ B, GoodFile pdfX docxX geo gsvc f :=
    fun f hf => hgood f (List.mem_append_right _ hf)
  have hone : ∀ f : CvFile, GoodFile pdfX docxX geo gsvc f →
      process_single_cv pdfX docxX f = extract f.svc := by
    intro f hf
    obtain ⟨t, ht⟩ := hf.1
    unfold process_single_cv
    rw [ht]
  have hres : cvResults pdfX docxX (A ++ fk :: B) =
      A.map (fun f => extract f.svc) ++
        errRecord fk.filename e :: B.map (fun f => extract f.svc) := by
    unfold cvResults
    rw [List.map_append, List.map_cons]
    congr 1
    · exact List.map_congr_left (fun f hf => hone f (hgA f hf))
    · congr 1
      · unfold process_single_cv
        rw [hbad]
      · exact List.map_congr_left (fun f hf => hone f (hgB f hf))
  have herrA : ∀ r ∈ A.map (fun f => extract f.svc),
      (jget "error" r).isSome = false := by
    intro r hr
    obtain ⟨f, hf, rfl⟩ := List.mem_map.mp hr
    rw [(hgA f hf).2.1]
    rfl
  have herrB : ∀ r ∈ B.map (fun f => extract f.svc),
      (jget "error" r).isSome = false := by
    intro r hr
    obtain ⟨f, hf, rfl⟩ := List.mem_map.mp hr
    rw [(hgB f hf).2.1]
    rfl
  have hkerr : (jget "error" (errRecord fk.filename e)).isSome = true := rfl
  have herrs : cvErrors (cvResults pdfX docxX (A ++ fk :: B)) =
      [errRecord fk.filename e] := by
    rw [cvErrors, hres, List.filter_append]
    have h1 : (A.map (fun f => extract f.svc)).filter
        (fun r => (jget "error" r).isSome) = [] :=
      List.filter_eq_nil.mpr (fun r hr => by rw [herrA r hr]; simp)
    have h2 : (B.map (fun f => extract f.svc)).filter
        (fun r => (jget "error" r).isSome) = [] :=
      List.filter_eq_nil.mpr (fun r hr => by rw [herrB r hr]; simp)
    have hstep : List.filter (fun r => (jget "error" r).isSome)
        (errRecord fk.filename e :: B.map (fun f => extract f.svc)) =
        errRecord fk.filename e :: List.filter (fun r => (jget "error" r).isSome)
          (B.map (fun f => extract f.svc)) := rfl
    rw [h1, hstep, h2]
    rfl
  have hall : cvAllData (cvResults pdfX docxX (A ++ fk :: B)) =
      A.map (fun f => extract f.svc) ++ B.map (fun f => extract f.svc) := by
    rw [cvAllData, hres, List.filter_append]
    have h1 : (A.map (fun f => extract f.svc)).filter
        (fun r => !(jget "error" r).isSome) = A.map (fun f => extract f.svc) :=
      List.filter_eq_self.mpr (fun r hr => by rw [herrA r hr]; rfl)
    have h2 : (B.map (fun f => extract f.svc)).filter
        (fun r => !(jget "error" r).isSome) = B.map (fun f => extract f.svc) :=
      List.filter_eq_self.mpr (fun r hr => by rw [herrB r hr]; rfl)
    have hkneg : ¬((!(jget "error" (errRecord fk.filename e)).isSome) = true) := by
      rw [hkerr]
      simp
    have hstep : List.filter (fun r => !(jget "error" r).isSome)
        (errRecord fk.filename e :: B.map (fun f => extract f.svc)) =
        List.filter (fun r => !(jget "error" r).isSome)
          (B.map (fun f => extract f.svc)) := rfl
    rw [h1, hstep, h2]
  have hrows : cvRows (cvResults pdfX docxX (A ++ fk :: B)) =
      (A.map (fun f => extract f.svc) ++ B.map (fun f => extract f.svc)).map rowOf := by
    rw [cvRows, hall]
    apply List.filter_eq_self.mpr
    intro row hrow
    obtain ⟨r, hr, rfl⟩ := List.mem_map.mp hrow
    rcases List.mem_append.mp hr with hra | hrb
    · obtain ⟨f, hf, rfl⟩ := List.mem_map.mp hra
      exact (hgA f hf).2.2.1
    · obtain ⟨f, hf, rfl⟩ := List.mem_map.mp hrb
      exact (hgB f hf).2.2.1
  have hlen : (cvRows (cvResults pdfX docxX (A ++ fk :: B))).length =
      A.length + B.length := by
    rw [hrows]
    simp
  rw [process_cvs_ok]
  by_cases hemp : (cvRows (cvResults pdfX docxX (A ++ fk :: B))).isEmpty = true
  · have h0 : A.length + B.length = 0 := by
      rw [← hlen]
      rw [List.isEmpty_iff.mp hemp]
      rfl
    rw [if_pos hemp]
    exact ⟨⟨[], cvErrors (cvResults pdfX docxX (A ++ fk :: B)), false⟩, rfl,
      herrs, by simp [h0]⟩
  · rw [if_neg hemp]
    have hsan : ∀ row2 ∈ ((cvRows (cvResults pdfX docxX (A ++ fk :: B))).map
        (enrichRow geo gsvc)).map coerceRow, ∃ z, sanitizeRow row2 = some z := by
      intro row2 h2
      obtain ⟨row1, h1, rfl⟩ := List.mem_map.mp h2
      obtain ⟨row0, h0, rfl⟩ := List.mem_map.mp h1
      rw [hrows] at h0
      obtain ⟨r, hr, rfl⟩ := List.mem_map.mp h0
      rcases List.mem_append.mp hr with hra | hrb
      · obtain ⟨f, hf, rfl⟩ := List.mem_map.mp hra
        exact (hgA f hf).2.2.2
      · obtain ⟨f, hf, rfl⟩ := List.mem_map.mp hrb
        exact (hgB f hf).2.2.2
    obtain ⟨l2, hl2, _⟩ := mapOpt_forward _ _ hsan
    have hload : load_to_bigquery true ((cvRows (cvResults pdfX docxX
        (A ++ fk :: B))).map (enrichRow geo gsvc)) = some true := by
      unfold load_to_bigquery sanitize_dataframe_for_bigquery
      rw [hl2]
      rfl
    rw [hload]
    refine ⟨_, rfl, herrs, ?_⟩
    show ((cvRows (cvResults pdfX docxX (A ++ fk :: B))).map
      (enrichRow geo gsvc)).length = A.length + B.length
    rw [List.length_map, hlen]

/-- Witness for C3: a two-file batch with one good .txt file and one file
with an unsupported extension yields exactly one error referencing that
file and one success record. -/
theorem process_cvs_isolates_failures_w :
    ∃ res, process_cvs (fun _ => .error "p") (fun _ => .error "d") (.ok "key")
        (fun _ _ => GeoOutcome.notFound) (fun _ => .error ()) true
        ([⟨"a.txt", [], .parsed (.obj [("name", .str "Bob")])⟩] ++
          ⟨"b.csv", [], .fail⟩ :: []) = .ok res ∧
      res.errors = [errRecord "b.csv" "Unsupported file format: .csv"] ∧
      res.jsonCv.length = 1 := by
  have h := process_cvs_isolates_failures (fun _ => .error "p")
    (fun _ => .error "d") "key" (fun _ _ => GeoOutcome.notFound)
    (fun _ => .error ())
    [⟨"a.txt", [], .parsed (.obj [("name", .str "Bob")])⟩]
    ⟨"b.csv", [], .fail⟩ [] "Unsupported file format: .csv" rfl ?_
  · exact h
  · intro f hf
    have hf2 : f = ⟨"a.txt", [], .parsed (.obj [("name", .str "Bob")])⟩ := by
      rcases List.mem_append.mp hf with h1 | h1
      · exact List.mem_singleton.mp h1
      · cases h1
    subst hf2
    exact ⟨⟨"", rfl⟩, rfl, rfl, ⟨_, rfl⟩⟩

/-- C6 evidence (code bug): when the warehouse load fails after a record
has been computed, process_cvs does not invoke the Notifier but — against
the claim and the dead else-branch at cv_process.py line 251-252 — it
propagates the load exception out of the orchestrator and discards the
already-computed record (first conjunct).  The second conjunct shows the
identical batch with a succeeding load yields one record, zero errors,
and the notification, so the record discarded in the failing run was
genuinely computed. -/
theorem process_cvs_load_failure_raises :
    process_cvs (fun _ => .error "p") (fun _ => .error "d") (.ok "key")
      (fun _ _ => GeoOutcome.notFound) (fun _ => .error ()) false
      [⟨"cv.txt", [], .parsed (.obj [("name", .str "Bob")])⟩] = .error () ∧
    (process_cvs (fun _ => .error "p") (fun _ => .error "d") (.ok "key")
      (fun _ _ => GeoOutcome.notFound) (fun _ => .error ()) true
      [⟨"cv.txt", [], .parsed (.obj [("name", .str "Bob")])⟩]).toOption.map
        (fun r => (r.jsonCv.length, r.errors.length, r.emailSent)) =
      some (1, 0, true) :=
  ⟨rfl, rfl⟩

/-! ## preprocess.clean_text (claim C2)

Each regex substitution of clean_text (preprocess.py lines 104-148) is
embedded as a character-list scanner, applied in source order.  The
unicodedata NFKC normalization is an external library call and is taken
as a function parameter; every theorem below assumes only the property
Unicode guarantees and the code relies on: NFKC is the identity on ASCII
text. -/

/-- Class [ \t] of the horizontal-whitespace collapse (line 135). -/
def isHWs (c : Char) : Bool := c = ' ' || c = '\t'

/-- Class [-_] of the dash-run collapse (line 133). -/
def isDashU (c : Char) : Bool := c = '-' || c = '_'

/-- Newline class of line 134. -/
def isNl (c : Char) : Bool := c = '\n'

/-- Punctuation class of line 144. -/
def isPunctC (c : Char) : Bool :=
  c = ',' || c = '.' || c = '!' || c = '?' || c = ';' || c = ':'

/-- Bullet (U+2022) class of line 113. -/
def isBullet2022 (c : Char) : Bool := c = '•'

/-- Complement class [^\x00-\x7F] of line 141. -/
def nonAscii (c : Char) : Bool := 0x80 ≤ c.toNat

/-- Printable ASCII characters. -/
def isPrintAscii (c : Char) : Bool := 0x20 ≤ c.toNat && c.toNat ≤ 0x7E

/-- Length of the longest p-prefix of the list. -/
def leadRun (p : Char → Bool) : List Char → Nat
  | [] => 0
  | c :: cs => if p c then leadRun p cs + 1 else 0

/-- Whether the list contains n consecutive characters satisfying p. -/
def hasRunGe (p : Char → Bool) (n : Nat) : List Char → Bool
  | [] => n = 0
  | c :: cs => (n ≤ leadRun p (c :: cs) : Bool) || hasRunGe p n cs

/-- Maximal-run substitution engine: run accumulates the current reversed
p-run; at the end of each maximal run the run is passed through flush. -/
def runSubGo (p : Char → Bool) (flush : List Char → List Char) (run : List Char) :
    List Char → List Char
  | [] => flush run.reverse
  | c :: cs =>
      if p c then runSubGo p flush (c :: run) cs
      else flush run.reverse ++ c :: runSubGo p flush [] cs

/-- Regex substitution of every maximal run of p-characters by flush of
the run (Python re.sub over a single-class pattern). -/
def runSub (p : Char → Bool) (flush : List Char → List Char) (l : List Char) :
    List Char :=
  runSubGo p flush [] l

/-- Flush for patterns class-repeated n or more times: such runs become
rep, shorter runs stay. -/
def flushMin (n : Nat) (rep : List Char) (r : List Char) : List Char :=
  if n ≤ r.length then rep else r

/-- Flush for one-or-more patterns: every non-empty run becomes the
single character rep. -/
def flushAll (rep : Char) (r : List Char) : List Char :=
  if r.isEmpty then [] else [rep]

/-- Matcher for the pattern (cid: digits ) after the digits: consume
digits then a closing parenthesis (line 109; ASCII digits, the only ones
these PDF artifacts contain). -/
def cidDigits : List Char → Option (List Char)
  | [] => none
  | c :: cs => if c.isDigit then cidDigits cs else if c = ')' then some cs else none

/-- Leftmost matcher for one (cid: digits ) token. -/
def matchCid : List Char → Option (List Char)
  | '(' :: 'c' :: 'i' :: 'd' :: ':' :: c :: cs =>
      if c.isDigit then cidDigits cs else none
  | _ => none

/-- Fuelled scanner for the cid-token removal; fuel = remaining input
length always suffices because every step consumes at least one
character. -/
def subCidF : Nat → List Char → List Char
  | 0, l => l
  | _ + 1, [] => []
  | fuel + 1, c :: cs =>
      match matchCid (c :: cs) with
      | some rest => subCidF fuel rest
      | none => c :: subCidF fuel cs

/-- Substitution of line 109: remove every (cid: digits ) token. -/
def subCid (l : List Char) : List Char := subCidF l.length l

/-- Whether the list contains a (cid: digits ) token. -/
def hasCid : List Char → Bool
  | [] => false
  | c :: cs => (matchCid (c :: cs)).isSome || hasCid cs

/-- Tail of a mojibake dash sequence: after the leading a-circumflex the
euro sign and one curly double quote must follow. -/
def mojibakeTail : List Char → Option (List Char)
  | '€' :: d :: rest => if d = '“' ∨ d = '”' then some rest else none
  | _ => none

/-- Fuelled scanner for line 110: the mojibake sequences for en/em dash
and the real en/em dash characters all become a plain dash. -/
def subDashesF : Nat → List Char → List Char
  | 0, l => l
  | _ + 1, [] => []
  | fuel + 1, c :: cs =>
      if c = 'â' then
        match mojibakeTail cs with
        | some rest => '-' :: subDashesF fuel rest
        | none => c :: subDashesF fuel cs
      else if c = '–' ∨ c = '—' then '-' :: subDashesF fuel cs
      else c :: subDashesF fuel cs

/-- Substitution of line 110. -/
def subDashes (l : List Char) : List Char := subDashesF l.length l

/-- Character map of line 111: curly double quotes become a straight
double quote. -/
def quoteDouble (c : Char) : Char := if c = '“' ∨ c = '”' then '"' else c

/-- Character map of line 112: curly single quotes become an apostrophe. -/
def quoteSingle (c : Char) : Char :=
  if c = '‘' ∨ c = '’' then Char.ofNat 39 else c

/-- Character map of line 132: bullet-like glyphs become a dash. -/
def bulletChar (c : Char) : Char :=
  if c = '•' ∨ c = '●' ∨ c = '■' ∨ c = '▪' then '-' else c

/-- Character map of line 138: astral-plane codepoints become a space. -/
def astralChar (c : Char) : Char := if 0x10000 ≤ c.toNat then ' ' else c

/-- Matcher for the page-boundary marker of line 114:
three dashes, optional whitespace, Page, optional whitespace, digits,
optional whitespace, three dashes. -/
def matchPage : List Char → Option (List Char)
  | '-' :: '-' :: '-' :: rest =>
      match rest.dropWhile isPyWs with
      | 'P' :: 'a' :: 'g' :: 'e' :: rest2 =>
          match rest2.dropWhile isPyWs with
          | d :: rest3 =>
              if d.isDigit then
                match (rest3.dropWhile Char.isDigit).dropWhile isPyWs with
                | '-' :: '-' :: '-' :: rest4 => some rest4
                | _ => none
              else none
          | [] => none
      | _ => none
  | _ => none

/-- Fuelled scanner for the page-marker substitution. -/
def subPageF : Nat → List Char → List Char
  | 0, l => l
  | _ + 1, [] => []
  | fuel + 1, c :: cs =>
      match matchPage (c :: cs) with
      | some rest => ' ' :: subPageF fuel rest
      | none => c :: subPageF fuel cs

/-- Substitution of line 114: page markers become a single space. -/
def subPage (l : List Char) : List Char := subPageF l.length l

/-- Whether the list contains a page marker. -/
def hasPage : List Char → Bool
  | [] => false
  | c :: cs => (matchPage (c :: cs)).isSome || hasPage cs

/-- Remainder of the input after a literal pattern, if it is a front
segment of it. -/
def restAfter : List Char → List Char → Option (List Char)
  | [], rest => some rest
  | _ :: _, [] => none
  | p :: ps, c :: cs => if c = p then restAfter ps cs else none

/-- Fuelled scanner for Python str.replace of the pattern p0 :: ps. -/
def replaceAllF (p0 : Char) (ps rep : List Char) : Nat → List Char → List Char
  | 0, l => l
  | _ + 1, [] => []
  | fuel + 1, c :: cs =>
      if c = p0 then
        match restAfter ps cs with
        | some rest => rep ++ replaceAllF p0 ps rep fuel rest
        | none => c :: replaceAllF p0 ps rep fuel cs
      else c :: replaceAllF p0 ps rep fuel cs

/-- Python str.replace with a non-empty pattern p0 :: ps. -/
def replaceAll (p0 : Char) (ps rep : List Char) (l : List Char) : List Char :=
  replaceAllF p0 ps rep l.length l

/-- Icon replacement table of lines 117-127, in dict insertion order; the
telephone and envelope icons carry the variation selector U+FE0F. -/
def iconTable : List ((Char × List Char) × List Char) :=
  [(('📍', []), "Location:".data), (('📧', []), "Email:".data),
   (('📱', []), "Phone:".data), (('🌐', []), "Website:".data),
   (('💼', []), "LinkedIn:".data), (('🐙', []), "GitHub:".data),
   (('🏠', []), "Address:".data), (('☎', ['️']), "Phone:".data),
   (('✉', ['️']), "Email:".data)]

/-- Replacement loop of lines 128-129. -/
def cleanIcons (l : List Char) : List Char :=
  iconTable.foldl (fun acc entry => replaceAll entry.1.1 entry.1.2 entry.2 acc) l

/-- Scanner for line 144: a whitespace character directly before one of
,.!?;: is dropped (the punctuation is kept). -/
def subWsPunct : List Char → List Char
  | [] => []
  | [c] => [c]
  | c :: d :: rest =>
      if isPyWs c && isPunctC d then d :: subWsPunct rest
      else c :: subWsPunct (d :: rest)

/-- Whether some whitespace character directly precedes punctuation. -/
def hasWsPunct : List Char → Bool
  | [] => false
  | [_] => false
  | c :: d :: rest => (isPyWs c && isPunctC d) || hasWsPunct (d :: rest)

/-- preprocess.clean_text (lines 104-148) over character lists, nfkc
being the Unicode NFKC normalization of the unicodedata library.  The
stages appear exactly in source order. -/
def cleanList (nfkc : List Char → List Char) (l : List Char) : List Char :=
  let l := nfkc l
  let l := subCid l
  let l := subDashes l
  let l := l.map quoteDouble
  let l := l.map quoteSingle
  let l := runSub isBullet2022 (flushAll '•') l
  let l := subPage l
  let l := cleanIcons l
  let l := l.map bulletChar
  let l := runSub isDashU (flushMin 3 [' ']) l
  let l := runSub isNl (flushMin 2 ['\n']) l
  let l := runSub isHWs (flushAll ' ') l
  let l := l.map astralChar
  let l := runSub nonAscii (flushAll ' ') l
  let l := subWsPunct l
  let l := runSub isPyWs (flushMin 2 [' ']) l
  pyStripL l

/-- preprocess.clean_text on strings. -/
def clean_text (nfkc : String → String) (s : String) : String :=
  String.mk (cleanList (fun l => (nfkc (String.mk l)).data) s.data)

/-! ## Identity lemmas for the clean_text stages -/

theorem map_id_of (f : Char → Char) : ∀ l : List Char, (∀ c ∈ l, f c = c) →
    l.map f = l
  | [], _ => rfl
  | c :: cs, h => by
      rw [List.map_cons, h c (List.mem_cons_self c cs),
        map_id_of f cs (fun x hx => h x (List.mem_cons_of_mem c hx))]

theorem leadRun_lt (p : Char → Bool) (n : Nat) (hn : 1 ≤ n) :
    ∀ l, hasRunGe p n l = false → leadRun p l < n
  | [], _ => by simpa [leadRun] using hn
  | c :: cs, h => by
      have h2 : (decide (n ≤ leadRun p (c :: cs)) || hasRunGe p n cs) = false := h
      rw [Bool.or_eq_false_iff] at h2
      have h3 := h2.1
      rw [decide_eq_false_iff_not] at h3
      omega

theorem hasRunGe_tail (p : Char → Bool) (n : Nat) (c : Char) (cs : List Char)
    (h : hasRunGe p n (c :: cs) = false) : hasRunGe p n cs = false := by
  have h2 : (decide (n ≤ leadRun p (c :: cs)) || hasRunGe p n cs) = false := h
  rw [Bool.or_eq_false_iff] at h2
  exact h2.2

theorem leadRun_of_none (p : Char → Bool) :
    ∀ l, (∀ c ∈ l, p c = false) → leadRun p l = 0
  | [], _ => rfl
  | c :: cs, h => by
      have hc := h c (List.mem_cons_self c cs)
      simp [leadRun, hc]

theorem hasRunGe_of_none (p : Char → Bool) (n : Nat) (hn : 1 ≤ n) :
    ∀ l, (∀ c ∈ l, p c = false) → hasRunGe p n l = false
  | [], _ => by simp [hasRunGe]; omega
  | c :: cs, h => by
      have h1 : leadRun p (c :: cs) = 0 := leadRun_of_none p (c :: cs) h
      have h2 := hasRunGe_of_none p n hn cs (fun x hx => h x (List.mem_cons_of_mem c hx))
      show (decide (n ≤ leadRun p (c :: cs)) || hasRunGe p n cs) = false
      rw [h1, h2, Bool.or_false, decide_eq_false_iff_not]
      omega

theorem leadRun_mono (p q : Char → Bool) (himp : ∀ c, p c = true → q c = true) :
    ∀ l, leadRun p l ≤ leadRun q l
  | [] => Nat.le_refl 0
  | c :: cs => by
      cases hpc : p c with
      | true =>
          have hqc := himp c hpc
          simp only [leadRun, hpc, hqc, if_true]
          exact Nat.succ_le_succ (leadRun_mono p q himp cs)
      | false => simp [leadRun, hpc]

theorem hasRunGe_mono (p q : Char → Bool) (n : Nat)
    (himp : ∀ c, p c = true → q c = true) :
    ∀ l, hasRunGe q n l = false → hasRunGe p n l = false
  | [], h => h
  | c :: cs, h => by
      have h2 : (decide (n ≤ leadRun q (c :: cs)) || hasRunGe q n cs) = false := h
      rw [Bool.or_eq_false_iff] at h2
      have h3 := h2.1
      rw [decide_eq_false_iff_not] at h3
      have h4 := hasRunGe_mono p q n himp cs h2.2
      have h5 := leadRun_mono p q himp (c :: cs)
      show (decide (n ≤ leadRun p (c :: cs)) || hasRunGe p n cs) = false
      rw [h4, Bool.or_false, decide_eq_false_iff_not]
      omega

theorem runSubGo_min (p : Char → Bool) (n : Nat) (rep : List Char) (hn : 1 ≤ n) :
    ∀ (l run : List Char), run.all p = true → run.length + leadRun p l < n →
      hasRunGe p n l = false →
      runSubGo p (flushMin n rep) run l = run.reverse ++ l
  | [], run, _, hlen, _ => by
      show flushMin n rep run.reverse = run.reverse ++ []
      unfold flushMin
      rw [if_neg]
      · simp
      · rw [List.length_reverse]
        simp only [leadRun] at hlen
        omega
  | c :: cs, run, hall, hlen, h => by
      cases hpc : p c with
      | true =>
          have hlen2 : (c :: run).length + leadRun p cs < n := by
            simp only [leadRun, hpc, if_true] at hlen
            simp only [List.length_cons]
            omega
          have hall2 : (c :: run).all p = true := by
            simp only [List.all_cons, hpc, Bool.true_and]
            exact hall
          have h2 := hasRunGe_tail p n c cs h
          show (if p c = true then runSubGo p (flushMin n rep) (c :: run) cs
                else flushMin n rep run.reverse ++ c ::
                  runSubGo p (flushMin n rep) [] cs) = run.reverse ++ c :: cs
          rw [if_pos hpc]
          rw [runSubGo_min p n rep hn cs (c :: run) hall2 hlen2 h2]
          simp
      | false =>
          have h2 := hasRunGe_tail p n c cs h
          have hlt : leadRun p cs < n := leadRun_lt p n hn cs h2
          show (if p c = true then runSubGo p (flushMin n rep) (c :: run) cs
                else flushMin n rep run.reverse ++ c ::
                  runSubGo p (flushMin n rep) [] cs) = run.reverse ++ c :: cs
          rw [if_neg (by simp [hpc])]
          have hrun : flushMin n rep run.reverse = run.reverse := by
            unfold flushMin
            rw [if_neg]
            rw [List.length_reverse]
            omega
          rw [hrun, runSubGo_min p n rep hn cs [] rfl (by simpa using hlt) h2]
          simp

theorem runSub_min_id (p : Char → Bool) (n : Nat) (rep : List Char) (l : List Char)
    (hn : 1 ≤ n) (h : hasRunGe p n l = false) : runSub p (flushMin n rep) l = l := by
  unfold runSub
  have hlt : leadRun p l < n := leadRun_lt p n hn l h
  have := runSubGo_min p n rep hn l [] rfl (by simpa using hlt) h
  simpa using this

theorem runSubGo_isolated (p : Char → Bool) (rep : Char) :
    ∀ (l run : List Char), (run = [] ∨ (run = [rep] ∧ leadRun p l = 0)) →
      (∀ c ∈ l, p c = true → c = rep) → hasRunGe p 2 l = false →
      runSubGo p (flushAll rep) run l = run ++ l
  | [], run, hrun, _, _ => by
      rcases hrun with rfl | ⟨rfl, _⟩
      · show flushAll rep ([] : List Char).reverse = [] ++ []
        simp [flushAll]
      · show flushAll rep [rep].reverse = [rep] ++ []
        simp [flushAll]
  | c :: cs, run, hrun, hel, h => by
      cases hpc : p c with
      | true =>
          have hcrep : c = rep := hel c (List.mem_cons_self c cs) hpc
          have hrun2 : run = [] := by
            rcases hrun with rfl | ⟨rfl, hlead⟩
            · rfl
            · exfalso
              simp [leadRun, hpc] at hlead
          subst hrun2
          have hlead2 : leadRun p cs = 0 := by
            have := leadRun_lt p 2 (by omega) (c :: cs) h
            simp only [leadRun, hpc, if_true] at this
            omega
          have h2 := hasRunGe_tail p 2 c cs h
          show (if p c = true then runSubGo p (flushAll rep) [c] cs
                else flushAll rep ([] : List Char).reverse ++ c ::
                  runSubGo p (flushAll rep) [] cs) = [] ++ c :: cs
          rw [if_pos hpc, hcrep]
          rw [runSubGo_isolated p rep cs [rep] (Or.inr ⟨rfl, hlead2⟩)
            (fun x hx => hel x (List.mem_cons_of_mem c hx)) h2]
          simp
      | false =>
          have h2 := hasRunGe_tail p 2 c cs h
          show (if p c = true then runSubGo p (flushAll rep) (c :: run) cs
                else flushAll rep run.reverse ++ c ::
                  runSubGo p (flushAll rep) [] cs) = run ++ c :: cs
          rw [if_neg (by simp [hpc])]
          have hfr : flushAll rep run.reverse = run := by
            rcases hrun with rfl | ⟨rfl, _⟩ <;> simp [flushAll]
          rw [hfr, runSubGo_isolated p rep cs [] (Or.inl rfl)
            (fun x hx => hel x (List.mem_cons_of_mem c hx)) h2]
          simp

theorem runSub_isolated_id (p : Char → Bool) (rep : Char) (l : List Char)
    (hel : ∀ c ∈ l, p c = true → c = rep) (h : hasRunGe p 2 l = false) :
    runSub p (flushAll rep) l = l := by
  unfold runSub
  have := runSubGo_isolated p rep l [] (Or.inl rfl) hel h
  simpa using this

theorem subCidF_id : ∀ (fuel : Nat) (l : List Char), l.length ≤ fuel →
    hasCid l = false → subCidF fuel l = l
  | 0, l, hlen, _ => rfl
  | _ + 1, [], _, _ => rfl
  | fuel + 1, c :: cs, hlen, h => by
      have hor : ((matchCid (c :: cs)).isSome || hasCid cs) = false := h
      rw [Bool.or_eq_false_iff] at hor
      have hm : matchCid (c :: cs) = none := by
        cases hmc : matchCid (c :: cs) with
        | none => rfl
        | some r => rw [hmc] at hor; cases hor.1
      show (match matchCid (c :: cs) with
            | some rest => subCidF fuel rest
            | none => c :: subCidF fuel cs) = c :: cs
      rw [hm]
      show c :: subCidF fuel cs = c :: cs
      rw [subCidF_id fuel cs (by simp at hlen; omega) hor.2]

theorem subCid_id (l : List Char) (h : hasCid l = false) : subCid l = l :=
  subCidF_id l.length l (Nat.le_refl _) h

theorem subPageF_id : ∀ (fuel : Nat) (l : List Char), l.length ≤ fuel →
    hasPage l = false → subPageF fuel l = l
  | 0, l, hlen, _ => rfl
  | _ + 1, [], _, _ => rfl
  | fuel + 1, c :: cs, hlen, h => by
      have hor : ((matchPage (c :: cs)).isSome || hasPage cs) = false := h
      rw [Bool.or_eq_false_iff] at hor
      have hm : matchPage (c :: cs) = none := by
        cases hmc : matchPage (c :: cs) with
        | none => rfl
        | some r => rw [hmc] at hor; cases hor.1
      show (match matchPage (c :: cs) with
            | some rest => ' ' :: subPageF fuel rest
            | none => c :: subPageF fuel cs) = c :: cs
      rw [hm]
      show c :: subPageF fuel cs = c :: cs
      rw [subPageF_id fuel cs (by simp at hlen; omega) hor.2]

theorem subPage_id (l : List Char) (h : hasPage l = false) : subPage l = l :=
  subPageF_id l.length l (Nat.le_refl _) h

theorem subDashesF_id : ∀ (fuel : Nat) (l : List Char), l.length ≤ fuel →
    (∀ c ∈ l, isPrintAscii c = true) → subDashesF fuel l = l
  | 0, l, hlen, _ => rfl
  | _ + 1, [], _, _ => rfl
  | fuel + 1, c :: cs, hlen, h => by
      have hc : isPrintAscii c = true := h c (List.mem_cons_self c cs)
      have h1 : ¬c = 'â' := by
        intro hc2
        subst hc2
        exact absurd hc (by decide)
      have h2 : ¬(c = '–' ∨ c = '—') := by
        rintro (hc2 | hc2) <;> (subst hc2; exact absurd hc (by decide))
      show (if c = 'â' then
              match mojibakeTail cs with
              | some rest => '-' :: subDashesF fuel rest
              | none => c :: subDashesF fuel cs
            else if c = '–' ∨ c = '—' then '-' :: subDashesF fuel cs
            else c :: subDashesF fuel cs) = c :: cs
      rw [if_neg h1, if_neg h2]
      rw [subDashesF_id fuel cs (by simp at hlen; omega)
        (fun x hx => h x (List.mem_cons_of_mem c hx))]

theorem subDashes_id (l : List Char) (h : ∀ c ∈ l, isPrintAscii c = true) :
    subDashes l = l :=
  subDashesF_id l.length l (Nat.le_refl _) h

theorem replaceAllF_id (p0 : Char) (ps rep : List Char) :
    ∀ (fuel : Nat) (l : List Char), l.length ≤ fuel → (∀ c ∈ l, ¬c = p0) →
      replaceAllF p0 ps rep fuel l = l
  | 0, l, hlen, _ => rfl
  | _ + 1, [], _, _ => rfl
  | fuel + 1, c :: cs, hlen, h => by
      have hc : ¬c = p0 := h c (List.mem_cons_self c cs)
      show (if c = p0 then
              match restAfter ps cs with
              | some rest => rep ++ replaceAllF p0 ps rep fuel rest
              | none => c :: replaceAllF p0 ps rep fuel cs
            else c :: replaceAllF p0 ps rep fuel cs) = c :: cs
      rw [if_neg hc]
      rw [replaceAllF_id p0 ps rep fuel cs (by simp at hlen; omega)
        (fun x hx => h x (List.mem_cons_of_mem c hx))]

theorem replaceAll_id (p0 : Char) (ps rep : List Char) (l : List Char)
    (h : ∀ c ∈ l, ¬c = p0) : replaceAll p0 ps rep l = l :=
  replaceAllF_id p0 ps rep l.length l (Nat.le_refl _) h

theorem cleanIcons_id (l : List Char) (h : ∀ c ∈ l, isPrintAscii c = true) :
    cleanIcons l = l := by
  have hni : ∀ p0 : Char, 0x7F ≤ p0.toNat → ∀ c ∈ l, ¬c = p0 := by
    intro p0 hp c hc hceq
    subst hceq
    have h2 := h c hc
    simp only [isPrintAscii, Bool.and_eq_true, decide_eq_true_eq] at h2
    omega
  unfold cleanIcons iconTable
  simp only [List.foldl]
  rw [replaceAll_id _ _ _ _ (hni '📍' (by decide)),
    replaceAll_id _ _ _ _ (hni '📧' (by decide)),
    replaceAll_id _ _ _ _ (hni '📱' (by decide)),
    replaceAll_id _ _ _ _ (hni '🌐' (by decide)),
    replaceAll_id _ _ _ _ (hni '💼' (by decide)),
    replaceAll_id _ _ _ _ (hni '🐙' (by decide)),
    replaceAll_id _ _ _ _ (hni '🏠' (by decide)),
    replaceAll_id _ _ _ _ (hni '☎' (by decide)),
    replaceAll_id _ _ _ _ (hni '✉' (by decide))]

theorem subWsPunct_id : ∀ l : List Char, hasWsPunct l = false → subWsPunct l = l
  | [], _ => rfl
  | [c], _ => rfl
  | c :: d :: rest, h => by
      have hor : ((isPyWs c && isPunctC d) || hasWsPunct (d :: rest)) = false := h
      rw [Bool.or_eq_false_iff] at hor
      show (if isPyWs c && isPunctC d then d :: subWsPunct rest
            else c :: subWsPunct (d :: rest)) = c :: d :: rest
      rw [if_neg (by simp [hor.1])]
      rw [subWsPunct_id (d :: rest) hor.2]

theorem dropWhile_id (p : Char → Bool) : ∀ l : List Char,
    (match l.head? with | none => true | some c => !p c) = true →
    l.dropWhile p = l
  | [], _ => rfl
  | c :: cs, h => by
      have hc : p c = false := by
        simp only [List.head?] at h
        simpa using h
      simp [List.dropWhile_cons, hc]

theorem pyStripL_id (l : List Char)
    (hh : (match l.head? with | none => true | some c => !isPyWs c) = true)
    (hl : (match l.reverse.head? with | none => true | some c => !isPyWs c) = true) :
    pyStripL l = l := by
  unfold pyStripL
  rw [dropWhile_id isPyWs l hh, dropWhile_id isPyWs l.reverse hl,
    List.reverse_reverse]

theorem quoteDouble_id (c : Char) (h : isPrintAscii c = true) :
    quoteDouble c = c := by
  unfold quoteDouble
  rw [if_neg]
  rintro (rfl | rfl) <;> exact absurd h (by decide)

theorem quoteSingle_id (c : Char) (h : isPrintAscii c = true) :
    quoteSingle c = c := by
  unfold quoteSingle
  rw [if_neg]
  rintro (rfl | rfl) <;> exact absurd h (by decide)

theorem bulletChar_id (c : Char) (h : isPrintAscii c = true) :
    bulletChar c = c := by
  unfold bulletChar
  rw [if_neg]
  rintro (rfl | rfl | rfl | rfl) <;> exact absurd h (by decide)

theorem astralChar_id (c : Char) (h : isPrintAscii c = true) :
    astralChar c = c := by
  unfold astralChar
  rw [if_neg]
  intro h2
  simp only [isPrintAscii, Bool.and_eq_true, decide_eq_true_eq] at h
  omega

/-- Fully normalized text: printable ASCII with no residual cid token, no
page marker, no run of three or more dashes/underscores, no two adjacent
whitespace characters, no whitespace before punctuation, and no leading
or trailing whitespace.  On such text a clean_text pass is the
identity. -/
def goodClean (l : List Char) : Bool :=
  l.all isPrintAscii && !hasCid l && !hasPage l && !hasRunGe isDashU 3 l &&
  !hasRunGe isPyWs 2 l && !hasWsPunct l &&
  (match l.head? with | none => true | some c => !isPyWs c) &&
  (match l.reverse.head? with | none => true | some c => !isPyWs c)

theorem cleanList_fixpoint (nfkc : List Char → List Char)
    (hnf : ∀ l2 : List Char, (∀ c ∈ l2, c.toNat < 128) → nfkc l2 = l2)
    (l : List Char) (h : goodClean l = true) : cleanList nfkc l = l := by
  simp only [goodClean, Bool.and_eq_true] at h
  obtain ⟨⟨⟨⟨⟨⟨⟨hprint, hcid0⟩, hpage0⟩, hdash0⟩, hws20⟩, hwp0⟩, hhead⟩, hlast⟩ := h
  have hcid : hasCid l = false := by simpa using hcid0
  have hpage : hasPage l = false := by simpa using hpage0
  have hdash : hasRunGe isDashU 3 l = false := by simpa using hdash0
  have hws2 : hasRunGe isPyWs 2 l = false := by simpa using hws20
  have hwp : hasWsPunct l = false := by simpa using hwp0
  have hmem : ∀ c ∈ l, isPrintAscii c = true := List.all_eq_true.mp hprint
  have hbounds : ∀ c ∈ l, 32 ≤ c.toNat ∧ c.toNat ≤ 126 := by
    intro c hc
    have := hmem c hc
    simpa [isPrintAscii] using this
  have hascii : ∀ c ∈ l, c.toNat < 128 := fun c hc => by
    have := (hbounds c hc).2
    omega
  have hchar : ∀ c ∈ l, ∀ x : Char, (x.toNat < 32 ∨ 126 < x.toNat) → c ≠ x := by
    intro c hc x hx hceq
    subst hceq
    rcases hbounds c hc with ⟨h1, h2⟩
    rcases hx with hx | hx <;> omega
  have hbulF : ∀ c ∈ l, isBullet2022 c = false := by
    intro c hc
    have hne := hchar c hc '•' (by decide)
    unfold isBullet2022
    simp [hne]
  have hnlF : ∀ c ∈ l, isNl c = false := by
    intro c hc
    have hne := hchar c hc '\n' (by decide)
    unfold isNl
    simp [hne]
  have hnaF : ∀ c ∈ l, nonAscii c = false := by
    intro c hc
    have := (hbounds c hc).2
    unfold nonAscii
    simp only [decide_eq_false_iff_not]
    omega
  have hhwsI : ∀ c ∈ l, isHWs c = true → c = ' ' := by
    intro c hc hh
    have hne := hchar c hc '\t' (by decide)
    simp only [isHWs, Bool.or_eq_true, decide_eq_true_eq] at hh
    rcases hh with hh | hh
    · exact hh
    · exact absurd hh hne
  have hhwsM : ∀ c : Char, isHWs c = true → isPyWs c = true := by
    intro c hh
    simp only [isHWs, Bool.or_eq_true, decide_eq_true_eq] at hh
    rcases hh with rfl | rfl <;> decide
  show pyStripL (runSub isPyWs (flushMin 2 [' ']) (subWsPunct (runSub nonAscii
    (flushAll ' ') (List.map astralChar (runSub isHWs (flushAll ' ')
    (runSub isNl (flushMin 2 ['\n']) (runSub isDashU (flushMin 3 [' '])
    (List.map bulletChar (cleanIcons (subPage (runSub isBullet2022 (flushAll '•')
    (List.map quoteSingle (List.map quoteDouble (subDashes
    (subCid (nfkc l)))))))))))))))) = l
  rw [hnf l hascii]
  rw [subCid_id l hcid]
  rw [subDashes_id l hmem]
  rw [map_id_of quoteDouble l (fun c hc => quoteDouble_id c (hmem c hc))]
  rw [map_id_of quoteSingle l (fun c hc => quoteSingle_id c (hmem c hc))]
  rw [runSub_isolated_id isBullet2022 '•' l
    (fun c hc hpc => False.elim (by rw [hbulF c hc] at hpc; cases hpc))
    (hasRunGe_of_none _ 2 (by omega) l hbulF)]
  rw [subPage_id l hpage]
  rw [cleanIcons_id l hmem]
  rw [map_id_of bulletChar l (fun c hc => bulletChar_id c (hmem c hc))]
  rw [runSub_min_id isDashU 3 [' '] l (by omega) hdash]
  rw [runSub_min_id isNl 2 ['\n'] l (by omega)
    (hasRunGe_of_none _ 2 (by omega) l hnlF)]
  rw [runSub_isolated_id isHWs ' ' l hhwsI (hasRunGe_mono isHWs isPyWs 2 hhwsM l hws2)]
  rw [map_id_of astralChar l (fun c hc => astralChar_id c (hmem c hc))]
  rw [runSub_isolated_id nonAscii ' ' l
    (fun c hc hpc => False.elim (by rw [hnaF c hc] at hpc; cases hpc))
    (hasRunGe_of_none _ 2 (by omega) l hnaF)]
  rw [subWsPunct_id l hwp]
  rw [runSub_min_id isPyWs 2 [' '] l (by omega) hws2]
  exact pyStripL_id l hhead hlast

/-- Counterexample to C2 as stated: clean_text is not idempotent.  On the
ASCII input "a \n." (on which the NFKC normalization is the identity, so
it is instantiated with the identity function) the whitespace-before-
punctuation pass deletes only the newline, leaving "a ." whose space a
second pass then deletes: one application yields "a ." but two yield
"a.". -/
theorem clean_text_not_idempotent :
    cleanList (fun l => l) ['a', ' ', '\n', '.'] = ['a', ' ', '.'] ∧
    cleanList (fun l => l) (cleanList (fun l => l) ['a', ' ', '\n', '.']) =
      ['a', '.'] ∧
    cleanList (fun l => l) (cleanList (fun l => l) ['a', ' ', '\n', '.']) ≠
      cleanList (fun l => l) ['a', ' ', '\n', '.'] := by
  refine ⟨?_, ?_, ?_⟩ <;> decide

/-- C2 (amended): clean_text is idempotent on every input whose first
pass lands in the fully-normalized set goodClean — printable ASCII with
no residual cid token, page marker, 3+ dash/underscore run, adjacent
whitespace pair, whitespace before punctuation, or edge whitespace —
for any NFKC normalization function that is the identity on ASCII text
(as the Unicode NFKC transformation is).  In general a second
application can still differ, as clean_text_not_idempotent shows. -/
theorem clean_text_idempotent_on_normalized :
    ∀ nfkc : List Char → List Char,
      (∀ l : List Char, (∀ c ∈ l, c.toNat < 128) → nfkc l = l) →
      ∀ x : List Char, goodClean (cleanList nfkc x) = true →
        cleanList nfkc (cleanList nfkc x) = cleanList nfkc x :=
  fun nfkc hnf x h => cleanList_fixpoint nfkc hnf (cleanList nfkc x) h

/-- Witness for the amended C2 at a concrete input whose cleaned form is
fully normalized. -/
theorem clean_text_idempotent_on_normalized_w :
    cleanList (fun l => l) (cleanList (fun l => l) "hello world, ok.".data) =
      cleanList (fun l => l) "hello world, ok.".data :=
  clean_text_idempotent_on_normalized (fun l => l) (fun _ _ => rfl)
    "hello world, ok.".data (by decide)
